import Mathlib

/-!
Verification of the Identity Resolution & Reconciliation Engine of the
swim-times-manager repository (src/client/src/lib/storage.ts).

The engine is a single synchronous class over a persisted snapshot
`{athletes, swimTimes, version}`.  We embed that snapshot as `StoredData`
and each engine operation as a pure function from the persisted snapshot
to the persisted snapshot it leaves behind.  Environment services are
made explicit parameters:

* `crypto.randomUUID()` becomes a supply `uuid : Nat -> String` together
  with a threaded counter (one call per generated id, in source order);
* `new Date().toISOString()` becomes a `now : String` parameter;
* the JavaScript comparison `new Date(a) > new Date(b)` used by the
  reconciliation record pass becomes a parameter
  `dateGt : String -> String -> Bool` (theorems that need a fact about it,
  such as irreflexivity -- true of the JavaScript comparison, including
  the NaN case of invalid dates -- take that fact as a hypothesis);
* `JSON.parse` of the reconciliation input becomes an `ImportPayload`
  value describing the parse outcome: a parse failure, a top-level array
  of records, or an object with optional `athletes`, `time_entries` and
  `swimTimes` arrays (an `Option` field is `none` when the key is absent
  or not an array, matching the `Array.isArray` guards in the source).

A crucial behaviour of the source that the embedding reproduces
faithfully: `getData()` re-reads and re-parses the persisted snapshot on
every call, and `saveData` overwrites it whole.  `updateSwimTime` and
`importData` read the snapshot into a local `data` object first, later
call `ensureAthleteExists` (which does its own `getData`/`saveData`
round trip), and finally save the stale local `data` object -- thereby
discarding any athlete record that `ensureAthleteExists` had persisted
in between.  The final persisted snapshot computed here is exactly the
one the last `saveData` call of each operation writes.

JavaScript truthiness on the record fields is modelled by the designated
falsy value of each embedded type: `""` for strings, `0` for the numeric
`distance`, `none` for the optional `splits`.  The optional `metadata`
field of an athlete is inert in the engine and is omitted.  Strings are
ASCII in every concrete scenario; `toLowerCase` is `Char.toLower` and
the `\s` / `\w` character classes are the ASCII ones.
-/

/-- A performance record (interface SwimTime of storage.ts).  `stroke` and
`poolLength` are plain strings here; the source only ever compares them for
truthiness inside the engine. -/
structure SwimTime where
  id : String
  athleteName : String
  eventName : String
  date : String
  measuredTime : String
  stroke : String
  distance : Nat
  poolLength : String
  splits : Option String
  last_modified : String
deriving DecidableEq, Repr

/-- An identity (interface Athlete of storage.ts), binding a canonical name
to an alias list. -/
structure Athlete where
  id : String
  canonicalName : String
  aliases : List String
  createdAt : String
  updatedAt : String
deriving DecidableEq, Repr

/-- The persisted snapshot (interface StoredData of storage.ts). -/
structure StoredData where
  athletes : List Athlete
  swimTimes : List SwimTime
  version : Nat
deriving DecidableEq, Repr

/-- Import conflict (interface AliasConflict of storage.ts). -/
structure AliasConflict where
  aliasName : String
  localCanonical : String
  importedCanonical : String
deriving DecidableEq, Repr

/-- Potential duplicate athlete pair (interface DuplicateCandidate). -/
structure DuplicateCandidate where
  athlete1 : String
  athlete2 : String
  similarity : Rat
  timesCount1 : Nat
  timesCount2 : Nat
deriving DecidableEq, Repr

/-- Result of the reconciliation operation (interface ImportResult). -/
structure ImportResult where
  success : Bool
  imported : Nat
  updated : Nat
  skipped : Nat
  athletesImported : Nat
  conflicts : List AliasConflict
  duplicateSuggestions : List DuplicateCandidate
  errors : List String
deriving DecidableEq, Repr

/-- The names owned by one identity: its canonical name followed by its
aliases. -/
def athleteNames (a : Athlete) : List String :=
  a.canonicalName :: a.aliases

/-- All name strings owned by any identity of the list, in order. -/
def allStoreNames (l : List Athlete) : List String :=
  l.flatMap athleteNames

/-- The global alias-uniqueness invariant of the spec: the multiset of all
canonical names and aliases across all identities has no duplicate. -/
def namesNodup (s : StoredData) : Prop :=
  (allStoreNames s.athletes).Nodup

instance (s : StoredData) : Decidable (namesNodup s) := by
  unfold namesNodup; infer_instance

/-- The weak-reference invariant of the spec: every stored performance
record's athleteName equals some identity's current canonical name. -/
def recordsWellAttributed (s : StoredData) : Prop :=
  ∀ t ∈ s.swimTimes, ∃ a ∈ s.athletes, a.canonicalName = t.athleteName

instance (s : StoredData) : Decidable (recordsWellAttributed s) := by
  unfold recordsWellAttributed; infer_instance

/-! ### Name normalizer (calculateNameSimilarity's normalize closure) -/

/-- ASCII word characters, JavaScript regex class `\w`. -/
def isWordChar (c : Char) : Bool :=
  c.isAlphanum || c == '_'

/-- ASCII whitespace, JavaScript regex class `\s` restricted to ASCII. -/
def isSpaceChar (c : Char) : Bool :=
  c == ' ' || c == '\t' || c == '\n' || c == '\r' || c == '\x0b' || c == '\x0c'

/-- Drop leading and trailing whitespace (String.prototype.trim). -/
def trimList (l : List Char) : List Char :=
  ((l.dropWhile isSpaceChar).reverse.dropWhile isSpaceChar).reverse

/-- Replace every maximal run of whitespace by a single space
(replace(/\s+/g, ' ')).  The boolean records whether the previous
character was part of a whitespace run. -/
def collapseGo : List Char → Bool → List Char
  | [], _ => []
  | c :: rest, prevSpace =>
    if isSpaceChar c then
      if prevSpace then collapseGo rest true else ' ' :: collapseGo rest true
    else c :: collapseGo rest false

/-- The normalize closure of calculateNameSimilarity: lowercase, trim,
collapse whitespace runs, strip characters that are neither word
characters nor whitespace.  Returned as a character list. -/
def normalizeName (s : String) : List Char :=
  ((collapseGo (trimList (s.toList.map Char.toLower)) false).filter
    (fun c => isWordChar c || isSpaceChar c))

/-! ### Levenshtein distance (levenshteinDistance of storage.ts)

The source fills the classic Wagner-Fischer matrix row by row:
row 0 is `0..m`, and `matrix[i][j]` is `matrix[i-1][j-1]` when the
characters agree and otherwise `1 + min` of the three neighbours.  The
embedding keeps one row at a time. -/

/-- Compute the tail of row `i` from row `i-1` (`prev`) given the already
computed entry to the left (`left`) and the remaining characters of the
second string.  `prev` holds entries `matrix[i-1][j-1..]`. -/
def levNextRow (c : Char) : List Char → List Nat → Nat → List Nat
  | [], _, _ => []
  | y :: ys, prev, left =>
    match prev with
    | [] => []
    | diag :: rest =>
      let up := rest.headD 0
      let cur := if c = y then diag
        else Nat.min (diag + 1) (Nat.min (left + 1) (up + 1))
      cur :: levNextRow c ys rest cur

/-- Levenshtein distance between two character lists, unit costs, no
transpositions (levenshteinDistance of storage.ts). -/
def levenshteinDistance (str1 str2 : List Char) : Nat :=
  let row0 : List Nat := List.range (str2.length + 1)
  let lastRow := str1.foldl
    (fun prev c =>
      match prev with
      | [] => []
      | d0 :: _ => (d0 + 1) :: levNextRow c str2 prev (d0 + 1))
    row0
  lastRow.getLastD 0

/-! ### Similarity scorer (calculateNameSimilarity of storage.ts) -/

/-- Split a character list on single space characters, JavaScript
`string.split(' ')` (empty segments are kept). -/
def splitOnSpace : List Char → List Char → List (List Char)
  | [], acc => [acc.reverse]
  | c :: rest, acc =>
    if c = ' ' then acc.reverse :: splitOnSpace rest []
    else splitOnSpace rest (c :: acc)

/-- Similarity between two raw names: normalized equality gives 1,
otherwise one minus the edit distance over the longer normalized length,
then a +0.15 bonus (capped at 1) for an equal first token and an equal
last token when both normalized names have at least two tokens.  Scores
are exact rationals; the source uses floating point, but every value a
claim mentions is reached exactly. -/
def calculateNameSimilarity (str1 str2 : String) : Rat :=
  let a := normalizeName str1
  let b := normalizeName str2
  if a = b then 1
  else
    let distance := levenshteinDistance a b
    let maxLength := Nat.max a.length b.length
    let base : Rat := 1 - (distance : Rat) / (maxLength : Rat)
    let partsA := splitOnSpace a []
    let partsB := splitOnSpace b []
    let sim1 :=
      if partsA.length > 1 && partsB.length > 1 &&
          partsA.headD [] == partsB.headD [] then
        min 1 (base + 15/100)
      else base
    let sim2 :=
      if partsA.length > 1 && partsB.length > 1 &&
          partsA.getLastD [] == partsB.getLastD [] then
        min 1 (sim1 + 15/100)
      else sim1
    sim2

/-- All unordered pairs of a list in source iteration order
(indices i < j). -/
def allPairs : List String → List (String × String)
  | [] => []
  | x :: xs => xs.map (fun y => (x, y)) ++ allPairs xs

/-- findPotentialDuplicates of storage.ts: score every pair of canonical
names, keep those at or above the threshold with each side's record
count, sort descending by score (stable, like the JavaScript sort). -/
def findPotentialDuplicates (s : StoredData) (threshold : Rat) : List DuplicateCandidate :=
  let names := s.athletes.map (·.canonicalName)
  let duplicates := (allPairs names).filterMap (fun p =>
    let sim := calculateNameSimilarity p.1 p.2
    if threshold ≤ sim then
      some { athlete1 := p.1, athlete2 := p.2, similarity := sim,
             timesCount1 := (s.swimTimes.filter (fun t => t.athleteName == p.1)).length,
             timesCount2 := (s.swimTimes.filter (fun t => t.athleteName == p.2)).length }
    else none)
  duplicates.mergeSort (fun a b => b.similarity ≤ a.similarity)

/-! ### Identity Store operations -/

/-- resolveAthleteName of storage.ts: a canonical name resolves to itself,
an alias resolves to its (first) owner's canonical name, an unknown name
passes through unchanged.  Read-only: the source only calls getData. -/
def resolveAthleteName (s : StoredData) (name : String) : String :=
  match s.athletes.find? (fun a => a.canonicalName == name) with
  | some _ => name
  | none =>
    match s.athletes.find? (fun a => a.aliases.contains name) with
    | some owner => owner.canonicalName
    | none => name

/-- ensureAthleteExists of storage.ts: create an identity with this
canonical name and no aliases unless one already exists.  `freshId`
stands for the crypto.randomUUID() result. -/
def ensureAthleteExists (s : StoredData) (name freshId now : String) : StoredData :=
  if s.athletes.any (fun a => a.canonicalName == name) then s
  else { s with athletes := s.athletes ++ [⟨freshId, name, [], now, now⟩] }

/-- Replace the first element satisfying `p` by its image under `f`,
modelling a JavaScript in-place mutation of the object returned by
Array.prototype.find. -/
def updateFirst (p : α → Bool) (f : α → α) : List α → List α
  | [] => []
  | x :: xs => if p x then f x :: xs else x :: updateFirst p f xs

/-- One step of the deduplicating alias push of mergeAthletes
(`if (!toAthlete.aliases.includes(alias)) toAthlete.aliases.push(alias)`). -/
def dedupPush (acc : List String) (al : String) : List String :=
  if acc.contains al then acc else acc ++ [al]

/-- The winner's alias list after a merge: the winner's aliases, then the
resolved source name unless already present, then each of the loser's
aliases not yet present (steps 2 of mergeAthletes, in push order). -/
def mergedAliases (toAthlete fromAthlete : Athlete) (resolvedFrom : String) : List String :=
  fromAthlete.aliases.foldl dedupPush
    (if toAthlete.aliases.contains resolvedFrom then toAthlete.aliases
     else toAthlete.aliases ++ [resolvedFrom])

/-- The athlete list after a merge (steps 2-5 of mergeAthletes): mutate
the winner object (new alias list, bumped updatedAt), rewrite stale
aliases of every other object (compared by id, as the source does),
drop the loser by id. -/
def mergedAthletes (s : StoredData) (fromAthlete toAthlete : Athlete)
    (resolvedFrom resolvedTo now : String) : List Athlete :=
  ((updateFirst (fun a => a.canonicalName == resolvedTo)
      (fun a => { a with
        aliases := mergedAliases toAthlete fromAthlete resolvedFrom,
        updatedAt := now }) s.athletes).map
    (fun a =>
      if a.id == toAthlete.id then a
      else { a with aliases := a.aliases.map (fun al =>
        if al == resolvedFrom then resolvedTo else al) })).filter
    (fun a => a.id != fromAthlete.id)

/-- mergeAthletes of storage.ts.  Resolves both names, rejects self-merge
and unknown resolved names, rewrites the records of the losing identity,
moves its canonical name and aliases into the winner's alias list
(deduplicated), defensively rewrites stale aliases of other identities,
removes the losing identity and bumps the winner's updatedAt.  On error
the source throws before its saveData call, so the persisted snapshot is
the input.  The winner's updatedAt bump (step 5 of the source) is folded
into the alias update of the same object; no intermediate step reads
updatedAt, so the timing is unobservable. -/
def mergeAthletes (s : StoredData) (fromName toName now : String) : Except String StoredData :=
  let resolvedFrom := resolveAthleteName s fromName
  let resolvedTo := resolveAthleteName s toName
  if resolvedFrom == resolvedTo then .error "Cannot merge athlete with itself"
  else
    match s.athletes.find? (fun a => a.canonicalName == resolvedFrom) with
    | none => .error ("Source athlete not found: " ++ resolvedFrom)
    | some fromAthlete =>
      match s.athletes.find? (fun a => a.canonicalName == resolvedTo) with
      | none => .error ("Target athlete not found: " ++ resolvedTo)
      | some toAthlete =>
        let newTimes := s.swimTimes.map (fun t =>
          if t.athleteName == resolvedFrom then { t with athleteName := resolvedTo } else t)
        .ok { s with
              athletes := mergedAthletes s fromAthlete toAthlete resolvedFrom resolvedTo now,
              swimTimes := newTimes }

/-- renameAthleteCanonical of storage.ts: swap the canonical name with one
of the identity's existing aliases, rewriting all of its records.  The
no-change call returns before saving; invalid targets throw before any
mutation. -/
def renameAthleteCanonical (s : StoredData) (currentName newName now : String) : Except String StoredData :=
  match s.athletes.find? (fun a => a.canonicalName == currentName) with
  | none => .error ("Athlete not found: " ++ currentName)
  | some athlete =>
    if newName != currentName && !athlete.aliases.contains newName then
      .error (newName ++ " is not a known name or alias for this athlete")
    else if newName == currentName then .ok s
    else
      let newTimes := s.swimTimes.map (fun t =>
        if t.athleteName == currentName then { t with athleteName := newName } else t)
      let athletes1 := updateFirst (fun a => a.canonicalName == currentName)
        (fun a => { a with
          aliases := (a.aliases.filter (fun x => x != newName)) ++ [currentName],
          canonicalName := newName, updatedAt := now }) s.athletes
      .ok { s with athletes := athletes1, swimTimes := newTimes }

/-- mergeAthletesWithFinalName of storage.ts: merge, then rename the
surviving canonical name to `finalName` when they differ.  The merge
saves before the rename runs, so a rename failure leaves the merged
snapshot behind; the pair returned here is the final persisted snapshot
together with the error, if one was thrown. -/
def mergeAthletesWithFinalName (s : StoredData) (fromName toName finalName now : String) :
    StoredData × Option String :=
  match mergeAthletes s fromName toName now with
  | .error e => (s, some e)
  | .ok s1 =>
    let resolvedTo := resolveAthleteName s1 toName
    if resolvedTo != finalName then
      match renameAthleteCanonical s1 resolvedTo finalName now with
      | .error e => (s1, some e)
      | .ok s2 => (s2, none)
    else (s1, none)

/-- unmergeAlias of storage.ts: detach an alias from its (first) owner and
create a fresh independent identity carrying it; performance records are
untouched. -/
def unmergeAlias (s : StoredData) (al freshId now : String) : Except String StoredData :=
  match s.athletes.find? (fun a => a.aliases.contains al) with
  | none => .error ("Alias not found: " ++ al)
  | some _ =>
    let athletes1 := updateFirst (fun a => a.aliases.contains al)
      (fun a => { a with aliases := a.aliases.filter (fun x => x != al), updatedAt := now }) s.athletes
    .ok { s with athletes := athletes1 ++ [⟨freshId, al, [], now, now⟩] }

/-- Input of createSwimTime (Omit of SwimTime without id and
last_modified). -/
structure NewSwimTime where
  athleteName : String
  eventName : String
  date : String
  measuredTime : String
  stroke : String
  distance : Nat
  poolLength : String
  splits : Option String
deriving DecidableEq, Repr

/-- The `splits || null` coercion the source applies when storing a
record: empty or absent splits become null. -/
def normSplits : Option String → Option String
  | some s => if s == "" then none else some s
  | none => none

/-- createSwimTime of storage.ts: resolve the subject name, ensure its
identity exists (persisted before the record), then append the record
with a fresh id.  Returns the persisted snapshot and the new record. -/
def createSwimTime (s : StoredData) (t : NewSwimTime) (freshAthleteId freshTimeId now : String) :
    StoredData × SwimTime :=
  let resolvedName := resolveAthleteName s t.athleteName
  let s1 := ensureAthleteExists s resolvedName freshAthleteId now
  let newTime : SwimTime :=
    { id := freshTimeId, athleteName := resolvedName, eventName := t.eventName,
      date := t.date, measuredTime := t.measuredTime, stroke := t.stroke,
      distance := t.distance, poolLength := t.poolLength,
      splits := normSplits t.splits, last_modified := now }
  ({ s1 with swimTimes := s1.swimTimes ++ [newTime] }, newTime)

/-- A partial record update (Partial of the update payload of
updateSwimTime); a `none` field is an absent key. -/
structure SwimTimeUpdate where
  athleteName : Option String := none
  eventName : Option String := none
  date : Option String := none
  measuredTime : Option String := none
  stroke : Option String := none
  distance : Option Nat := none
  poolLength : Option String := none
  splits : Option (Option String) := none
deriving DecidableEq, Repr

/-- Apply the object spread `{...time, ...updates}` of updateSwimTime. -/
def applySwimTimeUpdate (t : SwimTime) (u : SwimTimeUpdate) (now : String) : SwimTime :=
  { t with
    athleteName := u.athleteName.getD t.athleteName,
    eventName := u.eventName.getD t.eventName,
    date := u.date.getD t.date,
    measuredTime := u.measuredTime.getD t.measuredTime,
    stroke := u.stroke.getD t.stroke,
    distance := u.distance.getD t.distance,
    poolLength := u.poolLength.getD t.poolLength,
    splits := u.splits.getD t.splits,
    last_modified := now }

/-- updateSwimTime of storage.ts.  The source reads the snapshot into
`data` first; when a truthy athleteName update is present it resolves it
and calls ensureAthleteExists, whose save is then overwritten by the
final saveData of the stale `data` object -- so the persisted athlete
list never changes.  A falsy (empty) athleteName update skips resolution
but is still spread into the record. -/
def updateSwimTime (s : StoredData) (id : String) (u : SwimTimeUpdate)
    (freshAthleteId now : String) : StoredData × Option SwimTime :=
  match s.swimTimes.findIdx? (fun t => t.id == id) with
  | none => (s, none)
  | some i =>
    let u1 :=
      match u.athleteName with
      | some n => if n != "" then { u with athleteName := some (resolveAthleteName s n) } else u
      | none => u
    match s.swimTimes[i]? with
    | none => (s, none)
    | some old =>
      let newT := applySwimTimeUpdate old u1 now
      ({ s with swimTimes := s.swimTimes.set i newT }, some newT)

/-- deleteSwimTime of storage.ts: remove the record with this id; report
whether anything was removed. -/
def deleteSwimTime (s : StoredData) (id : String) : StoredData × Bool :=
  let rest := s.swimTimes.filter (fun t => t.id != id)
  if rest.length == s.swimTimes.length then (s, false)
  else ({ s with swimTimes := rest }, true)

/-! ### Reconciliation engine (exportData / importData of storage.ts) -/

/-- The parse outcome of the reconciliation input string.  `invalidJson`
covers a JSON.parse failure (and any other exception escaping into the
catch block).  `arr` is a parsed top-level array of records.  `obj` is a
parsed object; each field is `some` exactly when the key holds an array
(the source guards every access with Array.isArray). -/
inductive ImportPayload where
  | invalidJson
  | arr (times : List SwimTime)
  | obj (athletes : Option (List Athlete)) (time_entries : Option (List SwimTime))
      (swimTimes : Option (List SwimTime))
deriving DecidableEq, Repr

/-- exportData of storage.ts, composed with JSON.parse: the exported
string always parses to an object carrying the athletes and the records
under time_entries. -/
def exportData (s : StoredData) : ImportPayload :=
  .obj (some s.athletes) (some s.swimTimes) none

/-- The empty ImportResult the source initialises (success starts true). -/
def emptyImportResult : ImportResult :=
  { success := true, imported := 0, updated := 0, skipped := 0,
    athletesImported := 0, conflicts := [], duplicateSuggestions := [], errors := [] }

/-- One step of the identity pass of importData.  State: the in-memory
athlete list, the conflicts so far, the athletesImported counter and the
uuid counter.  A matching local canonical name merges aliases one by one
(each alias is checked against every other identity's alias list on the
live in-memory data); a missing one inserts the incoming identity
wholesale, aliases unchecked. -/
def importAthlete (uuid : Nat → String) (now : String)
    (st : List Athlete × List AliasConflict × Nat × Nat) (ia : Athlete) :
    List Athlete × List AliasConflict × Nat × Nat :=
  let (athletes, conflicts, created, k) := st
  match athletes.find? (fun a => a.canonicalName == ia.canonicalName) with
  | some existing =>
    let (athletes1, conflicts1) := ia.aliases.foldl
      (fun (acc : List Athlete × List AliasConflict) al =>
        let (aths, confs) := acc
        match aths.find? (fun a => a.id != existing.id && a.aliases.contains al) with
        | some conflictOwner =>
          (aths, confs ++ [⟨al, conflictOwner.canonicalName, ia.canonicalName⟩])
        | none =>
          let curAliases :=
            ((aths.find? (fun a => a.canonicalName == ia.canonicalName)).map
              (·.aliases)).getD []
          if curAliases.contains al then (aths, confs)
          else (updateFirst (fun a => a.canonicalName == ia.canonicalName)
            (fun a => { a with aliases := a.aliases ++ [al] }) aths, confs))
      (athletes, conflicts)
    let athletes2 := updateFirst (fun a => a.canonicalName == ia.canonicalName)
      (fun a => { a with updatedAt := now }) athletes1
    (athletes2, conflicts1, created, k)
  | none =>
    (athletes ++ [{ ia with
      id := uuid k, createdAt := now, updatedAt := now }],
      conflicts, created + 1, k + 1)

/-- Insertion-ordered map update, JavaScript Map.prototype.set: an
existing key keeps its position and receives the new value, a new key is
appended. -/
def mapSet (m : List (String × SwimTime)) (k : String) (v : SwimTime) :
    List (String × SwimTime) :=
  if m.any (fun p => p.1 == k) then
    m.map (fun p => if p.1 == k then (k, v) else p)
  else m ++ [(k, v)]

/-- Map lookup, JavaScript Map.prototype.get / has. -/
def mapGet (m : List (String × SwimTime)) (k : String) : Option SwimTime :=
  (m.find? (fun p => p.1 == k)).map (·.2)

/-- The required-field validation of the record pass, with JavaScript
truthiness (an empty string and a zero distance are falsy). -/
def validImported (t : SwimTime) : Bool :=
  t.athleteName != "" && t.eventName != "" && t.date != "" &&
    t.measuredTime != "" && t.stroke != "" && t.distance != 0 && t.poolLength != ""

/-- State threaded through the record pass of importData: the persisted
snapshot (mutated only by the ensureAthleteExists saves of the pass),
the id-keyed record map, the three counters, the error list and the
uuid counter. -/
structure RecordPassState where
  persisted : StoredData
  emap : List (String × SwimTime)
  updated : Nat
  imported : Nat
  skipped : Nat
  errors : List String
  k : Nat
deriving Repr

/-- One step of the record pass of importData.  Resolution and
ensureAthleteExists act on the *persisted* snapshot (the source calls
this.resolveAthleteName / this.ensureAthleteExists, each of which does
its own getData), not on the in-memory athlete list of the identity
pass.  A record with a known id is replaced only when dateGt says the
incoming lastModified is strictly newer; otherwise it is skipped. -/
def importOneTime (uuid : Nat → String) (now : String)
    (dateGt : String → String → Bool) (st : RecordPassState) (t : SwimTime) :
    RecordPassState :=
  if !validImported t then
    { st with errors := st.errors ++ ["Skipped invalid entry"], skipped := st.skipped + 1 }
  else
    let resolvedName := resolveAthleteName st.persisted t.athleteName
    let existsAlready := st.persisted.athletes.any (fun a => a.canonicalName == resolvedName)
    let persisted1 := ensureAthleteExists st.persisted resolvedName (uuid st.k) now
    let k1 := if existsAlready then st.k else st.k + 1
    let importedLastModified :=
      if t.last_modified != "" then t.last_modified
      else if t.date != "" then t.date else now
    match (if t.id != "" then mapGet st.emap t.id else none) with
    | some existing =>
      let existingLastModified :=
        if existing.last_modified != "" then existing.last_modified else existing.date
      if dateGt importedLastModified existingLastModified then
        let updatedTime : SwimTime :=
          { t with
            athleteName := resolvedName, splits := normSplits t.splits,
            last_modified := importedLastModified }
        { st with
            persisted := persisted1, k := k1,
            emap := mapSet st.emap t.id updatedTime, updated := st.updated + 1 }
      else
        { st with persisted := persisted1, k := k1, skipped := st.skipped + 1 }
    | none =>
      let newId := if t.id != "" then t.id else uuid k1
      let k2 := if t.id != "" then k1 else k1 + 1
      let newTime : SwimTime :=
        { t with
            id := newId, athleteName := resolvedName,
            splits := normSplits t.splits, last_modified := importedLastModified }
      { st with
          persisted := persisted1, k := k2,
          emap := mapSet st.emap newId newTime, imported := st.imported + 1 }

/-- The record pass and final assembly of importData, shared by the
top-level-array and object payload shapes.  The final saveData writes
the in-memory athlete list (from the identity pass) together with the
merged record map -- clobbering any athlete ensureAthleteExists
persisted during the pass.  success is set to `conflicts empty` at the
end. -/
def importTimesPhase (s : StoredData) (dataAthletes : List Athlete)
    (conflicts : List AliasConflict) (athletesImported : Nat) (k0 : Nat)
    (times : List SwimTime) (uuid : Nat → String) (now : String)
    (dateGt : String → String → Bool) : StoredData × ImportResult :=
  let emap0 := s.swimTimes.foldl (fun m t => mapSet m t.id t) []
  let st0 : RecordPassState :=
    { persisted := s, emap := emap0, updated := 0, imported := 0, skipped := 0,
      errors := [], k := k0 }
  let stF := times.foldl (importOneTime uuid now dateGt) st0
  let finalData : StoredData :=
    { athletes := dataAthletes, swimTimes := stF.emap.map (·.2), version := s.version }
  let dups := findPotentialDuplicates finalData (85/100)
  (finalData,
    { success := conflicts.isEmpty, imported := stF.imported, updated := stF.updated,
      skipped := stF.skipped, athletesImported := athletesImported,
      conflicts := conflicts, duplicateSuggestions := dups, errors := stF.errors })

/-- importData of storage.ts.  A parse failure is caught with nothing
persisted.  Otherwise the identity pass runs first (on the in-memory
data), then the shape of the record list is checked: a top-level array,
a time_entries array or a swimTimes array.  If none is present the call
returns success false before any saveData -- the persisted snapshot is
untouched even though the identity pass results (conflicts,
athletesImported) are reported.  Otherwise the record pass runs and the
final snapshot is persisted. -/
def importData (s : StoredData) (p : ImportPayload) (uuid : Nat → String)
    (now : String) (dateGt : String → String → Bool) : StoredData × ImportResult :=
  match p with
  | .invalidJson =>
    (s, { emptyImportResult with success := false, errors := ["Failed to parse JSON"] })
  | .arr times => importTimesPhase s s.athletes [] 0 0 times uuid now dateGt
  | .obj athletesOpt timeEntries swimTimesArr =>
    let idPass :=
      match athletesOpt with
      | some incoming => incoming.foldl (importAthlete uuid now) (s.athletes, [], 0, 0)
      | none => (s.athletes, [], 0, 0)
    match timeEntries.orElse (fun _ => swimTimesArr) with
    | some times =>
      importTimesPhase s idPass.1 idPass.2.1 idPass.2.2.1 idPass.2.2.2 times uuid now dateGt
    | none =>
      (s, { emptyImportResult with
            success := false, conflicts := idPass.2.1,
            athletesImported := idPass.2.2.1,
            errors := ["Invalid data format: expected time_entries or swimTimes array"] })

/-- A payload on which importData fails fast: a parse failure, or an
object carrying neither a time_entries nor a swimTimes array. -/
def badPayload : ImportPayload → Bool
  | .invalidJson => true
  | .arr _ => false
  | .obj _ te st => te.isNone && st.isNone

/-! ### The public mutating operations as a sequence -/

/-- One public mutating engine operation, with the environment values
(fresh uuids, the current clock reading) it consumes.  resolveAthleteName
is read-only and getters never write, so they do not appear. -/
inductive EngineOp where
  | createST (t : NewSwimTime) (freshAthleteId freshTimeId now : String)
  | updateST (id : String) (u : SwimTimeUpdate) (freshAthleteId now : String)
  | deleteST (id : String)
  | merge (fromName toName now : String)
  | rename (currentName newName now : String)
  | mergeFinal (fromName toName finalName now : String)
  | unmerge (al freshId now : String)
deriving Repr

/-- The persisted snapshot an operation leaves behind.  A thrown
IdentityError propagates before the operation's saveData call, leaving
the snapshot unchanged (mergeFinal excepted: its merge half may already
have saved). -/
def applyOp (s : StoredData) : EngineOp → StoredData
  | .createST t fa ft now => (createSwimTime s t fa ft now).1
  | .updateST id u fa now => (updateSwimTime s id u fa now).1
  | .deleteST id => (deleteSwimTime s id).1
  | .merge f t now =>
    match mergeAthletes s f t now with
    | .ok s' => s'
    | .error _ => s
  | .rename c n now =>
    match renameAthleteCanonical s c n now with
    | .ok s' => s'
    | .error _ => s
  | .mergeFinal f t fin now => (mergeAthletesWithFinalName s f t fin now).1
  | .unmerge al fid now =>
    match unmergeAlias s al fid now with
    | .ok s' => s'
    | .error _ => s

/-- Run a sequence of public engine operations. -/
def runOps (s : StoredData) (ops : List EngineOp) : StoredData :=
  ops.foldl applyOp s

/-- A name is known to the store when it is some identity's canonical
name or appears in some identity's alias list. -/
def knownName (s : StoredData) (x : String) : Bool :=
  s.athletes.any (fun a => a.canonicalName == x || a.aliases.contains x)

/-! ### Concrete snapshots used by counterexamples and witnesses -/

/-- A small healthy snapshot: two identities, one with an alias, one
record each attributed to a canonical name. -/
def demoStore : StoredData :=
  ⟨[⟨"a1", "Ann", ["A"], "t0", "t0"⟩, ⟨"b1", "Bob", [], "t0", "t0"⟩],
   [⟨"s1", "Ann", "100 Free", "2024-01-01", "1:00.00", "Freestyle", 100, "SCM", none, "2024-01-01"⟩,
    ⟨"s2", "Bob", "200 Free", "2024-02-01", "2:00.00", "Freestyle", 200, "SCM", none, "2024-02-01"⟩],
   2⟩

/-- A fresh-uuid supply for concrete runs. -/
def demoUuid : Nat → String := fun n => "uuid-" ++ toString n

/-- A date comparison that never reports strictly-newer (any constant
false comparison; what the concrete runs below need from the JavaScript
Date ordering). -/
def demoDateGt : String → String → Bool := fun _ _ => false

/-- Snapshot for the alias-uniqueness counterexample: one local identity
owning the name Ann Lee. -/
def c1Store : StoredData :=
  ⟨[⟨"a1", "Ann Lee", [], "t0", "t0"⟩], [], 2⟩

/-- Reconciliation payload whose incoming identity is entirely new
(canonical name Annie) but claims the locally owned name Ann Lee as an
alias; its record array is empty. -/
def c1Payload : ImportPayload :=
  .obj (some [⟨"x", "Annie", ["Ann Lee"], "t", "t"⟩]) (some []) none

/-- Snapshot for the reconciliation round-trip counterexample: one
identity and one otherwise-valid record whose id is the empty string
(falsy in JavaScript). -/
def c6Store : StoredData :=
  ⟨[⟨"a1", "Ann", [], "t0", "t0"⟩],
   [⟨"", "Ann", "100 Free", "2024-01-01", "1:00.00", "Freestyle", 100, "SCM", none, "2024-01-01"⟩],
   2⟩

/-- Local snapshot of the alias-conflict scenario: Ann Lee owns the
alias A.Lee; no other identity. -/
def c7Store : StoredData :=
  ⟨[⟨"a1", "Ann Lee", ["A.Lee"], "t0", "t0"⟩], [], 2⟩

/-- Local snapshot of the amended alias-conflict scenario: Ann Lee owns
the alias A.Lee and a separate local identity Annie Lee exists. -/
def c7StoreB : StoredData :=
  ⟨[⟨"a1", "Ann Lee", ["A.Lee"], "t0", "t0"⟩, ⟨"a2", "Annie Lee", [], "t0", "t0"⟩], [], 2⟩

/-- Reconciliation payload of the alias-conflict scenario: the incoming
identity Annie Lee also claims A.Lee; empty record array. -/
def c7Payload : ImportPayload :=
  .obj (some [⟨"x", "Annie Lee", ["A.Lee"], "t", "t"⟩]) (some []) none

/-! ### Helper lemmas about resolution -/

/-- Every resolution result is either a canonical name present in the
store, or the unchanged input when the store does not know the name. -/
theorem resolve_cases (s : StoredData) (x : String) :
    (∃ a ∈ s.athletes, a.canonicalName = resolveAthleteName s x) ∨
    (resolveAthleteName s x = x ∧ knownName s x = false) := by
  unfold resolveAthleteName
  cases hc : s.athletes.find? (fun a => a.canonicalName == x) with
  | some a =>
    left
    exact ⟨a, List.mem_of_find?_eq_some hc, by simpa using List.find?_some hc⟩
  | none =>
    cases ha : s.athletes.find? (fun a => a.aliases.contains x) with
    | some owner => exact Or.inl ⟨owner, List.mem_of_find?_eq_some ha, rfl⟩
    | none =>
      refine Or.inr ⟨rfl, ?_⟩
      have h1 := List.find?_eq_none.mp hc
      have h2 := List.find?_eq_none.mp ha
      simp only [knownName, List.any_eq_false]
      intro a hmem
      simp only [Bool.or_eq_true, not_or]
      exact ⟨h1 a hmem, h2 a hmem⟩

/-- A name that is some athlete's canonical name resolves to itself. -/
theorem resolve_of_canonical (s : StoredData) (y : String)
    (h : ∃ a ∈ s.athletes, a.canonicalName = y) : resolveAthleteName s y = y := by
  unfold resolveAthleteName
  cases hc : s.athletes.find? (fun a => a.canonicalName == y) with
  | some _ => rfl
  | none =>
    obtain ⟨a, ha, he⟩ := h
    have := List.find?_eq_none.mp hc a ha
    simp [he] at this

/-- An unknown name resolves to itself. -/
theorem resolve_of_unknown (s : StoredData) (x : String) (hu : knownName s x = false) :
    resolveAthleteName s x = x := by
  have hforall := List.any_eq_false.mp (by simpa only [knownName] using hu)
  have hc : s.athletes.find? (fun a => a.canonicalName == x) = none :=
    List.find?_eq_none.mpr (fun a ha hcon => by
      have h := hforall a ha
      simp only [Bool.or_eq_true, not_or] at h
      exact h.1 hcon)
  have ha2 : s.athletes.find? (fun a => a.aliases.contains x) = none :=
    List.find?_eq_none.mpr (fun a ha hcon => by
      have h := hforall a ha
      simp only [Bool.or_eq_true, not_or] at h
      exact h.2 hcon)
  unfold resolveAthleteName
  rw [hc, ha2]

/-! ### C5 -/

/-- C5: resolveAthleteName is a total pure function of the snapshot (it
never throws and returns only the resolved string, so it cannot create
an identity); an unknown name -- neither a canonical name nor an alias
-- passes through unchanged; and resolution is idempotent on every
store and every input. -/
theorem resolve_total_idempotent (s : StoredData) (x : String) :
    (knownName s x = false → resolveAthleteName s x = x) ∧
    resolveAthleteName s (resolveAthleteName s x) = resolveAthleteName s x := by
  refine ⟨resolve_of_unknown s x, ?_⟩
  rcases resolve_cases s x with h | ⟨hx, _⟩
  · exact resolve_of_canonical s _ h
  · rw [hx]; exact hx

/-- Witness for C5 at a concrete store and an unknown input. -/
theorem resolve_total_idempotent_witness :
    knownName demoStore "Zed" = false ∧
    resolveAthleteName demoStore "Zed" = "Zed" ∧
    resolveAthleteName demoStore (resolveAthleteName demoStore "Zed") =
      resolveAthleteName demoStore "Zed" :=
  ⟨by decide, (resolve_total_idempotent demoStore "Zed").1 (by decide),
    (resolve_total_idempotent demoStore "Zed").2⟩

/-! ### C8 -/

/-- C8: the worked similarity example.  "John Smith" and "Jon Smith"
normalize to strings of lengths 10 and 9 whose Levenshtein distance is
1 (base 0.9); the first tokens differ, the last tokens are both smith,
so a single +0.15 bonus applies and the capped score is exactly 1. -/
theorem similarity_worked_example :
    (normalizeName "John Smith").length = 10 ∧
    (normalizeName "Jon Smith").length = 9 ∧
    levenshteinDistance (normalizeName "John Smith") (normalizeName "Jon Smith") = 1 ∧
    (splitOnSpace (normalizeName "John Smith") []).headD [] ≠
      (splitOnSpace (normalizeName "Jon Smith") []).headD [] ∧
    (splitOnSpace (normalizeName "John Smith") []).getLastD [] =
      (splitOnSpace (normalizeName "Jon Smith") []).getLastD [] ∧
    calculateNameSimilarity "John Smith" "Jon Smith" = 1 := by
  refine ⟨by decide, by decide, by decide, by decide, by decide, ?_⟩
  have hA : normalizeName "John Smith" = ['j','o','h','n',' ','s','m','i','t','h'] := by decide
  have hB : normalizeName "Jon Smith" = ['j','o','n',' ','s','m','i','t','h'] := by decide
  have hL : levenshteinDistance ['j','o','h','n',' ','s','m','i','t','h']
      ['j','o','n',' ','s','m','i','t','h'] = 1 := by decide
  have hSA : splitOnSpace ['j','o','h','n',' ','s','m','i','t','h'] [] =
      [['j','o','h','n'], ['s','m','i','t','h']] := by decide
  have hSB : splitOnSpace ['j','o','n',' ','s','m','i','t','h'] [] =
      [['j','o','n'], ['s','m','i','t','h']] := by decide
  simp +decide only [calculateNameSimilarity, hA, hB, hL, hSA, hSB]
  norm_num

/-! ### C9 -/

/-- C9: a malformed reconciliation payload -- unparseable input, or a
parsed object carrying neither a time_entries nor a swimTimes array --
makes importData report success = false and leaves the persisted
snapshot completely untouched. -/
theorem import_malformed_atomic (s : StoredData) (p : ImportPayload)
    (uuid : Nat → String) (now : String) (dateGt : String → String → Bool)
    (h : badPayload p = true) :
    (importData s p uuid now dateGt).1 = s ∧
    (importData s p uuid now dateGt).2.success = false := by
  cases p with
  | invalidJson => exact ⟨rfl, rfl⟩
  | arr times => simp [badPayload] at h
  | obj ao te st =>
    simp only [badPayload, Bool.and_eq_true, Option.isNone_iff_eq_none] at h
    obtain ⟨h1, h2⟩ := h
    subst h1; subst h2
    exact ⟨rfl, rfl⟩

/-- Witness for C9: an unparseable payload against the demo snapshot. -/
theorem import_malformed_atomic_witness :
    badPayload ImportPayload.invalidJson = true ∧
    (importData demoStore .invalidJson demoUuid "t1" demoDateGt).1 = demoStore ∧
    (importData demoStore .invalidJson demoUuid "t1" demoDateGt).2.success = false :=
  ⟨rfl,
    (import_malformed_atomic demoStore .invalidJson demoUuid "t1" demoDateGt rfl).1,
    (import_malformed_atomic demoStore .invalidJson demoUuid "t1" demoDateGt rfl).2⟩

/-! ### C10 -/

/-- C10: importData reports success exactly when the payload has a
recognized record-array shape and the conflicts list it returns is
empty; per-record validation failures (counted in skipped, appended to
errors) never affect success. -/
theorem import_success_iff (s : StoredData) (p : ImportPayload)
    (uuid : Nat → String) (now : String) (dateGt : String → String → Bool) :
    (importData s p uuid now dateGt).2.success = true ↔
      (badPayload p = false ∧ (importData s p uuid now dateGt).2.conflicts = []) := by
  cases p with
  | invalidJson => simp [importData, emptyImportResult, badPayload]
  | arr times => simp [importData, importTimesPhase, badPayload]
  | obj ao te st =>
    cases te with
    | some l =>
      simp [importData, importTimesPhase, badPayload, Option.orElse, List.isEmpty_iff]
    | none =>
      cases st with
      | some l =>
        simp [importData, importTimesPhase, badPayload, Option.orElse, List.isEmpty_iff]
      | none => simp [importData, badPayload, Option.orElse]

/-! ### C1 counterexample -/

/-- C1 counterexample: c1Store satisfies the global alias-uniqueness
invariant, yet a single importData call whose incoming identity is
entirely new (canonical name Annie) but claims the locally owned name
Ann Lee as an alias leaves a snapshot in which Ann Lee is both a
canonical name and an alias -- the invariant is violated, so it is not
preserved by every sequence of engine operations that includes
reconciliation. -/
theorem alias_uniqueness_cex :
    namesNodup c1Store ∧
    ¬ namesNodup (importData c1Store c1Payload demoUuid "t1" demoDateGt).1 := by
  constructor
  · decide
  · decide

/-! ### C2 -/

/-- C2 (failing run): demoStore satisfies both invariants; updating
record s1 to the brand-new name Zed persists the record carrying Zed
while the identity that ensureAthleteExists persisted for Zed is
clobbered by the stale snapshot updateSwimTime saves last, so the final
snapshot has a record whose athleteName is no identity's canonical
name.  The record pass of importData clobbers identically. -/
theorem record_attribution_code_bug :
    recordsWellAttributed demoStore ∧ namesNodup demoStore ∧
    ((updateSwimTime demoStore "s1" { athleteName := some "Zed" } "fresh" "t1").1.swimTimes.map
      (·.athleteName)) = ["Zed", "Bob"] ∧
    ((updateSwimTime demoStore "s1" { athleteName := some "Zed" } "fresh" "t1").1.athletes.map
      (·.canonicalName)) = ["Ann", "Bob"] ∧
    ¬ recordsWellAttributed
      (updateSwimTime demoStore "s1" { athleteName := some "Zed" } "fresh" "t1").1 := by
  refine ⟨by decide, by decide, by decide, by decide, by decide⟩

/-! ### C6 counterexample -/

/-- C6 counterexample: c6Store satisfies alias uniqueness and demoDateGt
is irreflexive, yet re-importing the export of c6Store re-imports its
single record (whose id is the empty string, falsy in JavaScript) as a
brand-new record: imported is 1 rather than 0 and skipped is 0 rather
than the record count. -/
theorem reconcile_roundtrip_cex :
    namesNodup c6Store ∧ (∀ x, demoDateGt x x = false) ∧
    (importData c6Store (exportData c6Store) demoUuid "t1" demoDateGt).2.imported = 1 ∧
    (importData c6Store (exportData c6Store) demoUuid "t1" demoDateGt).2.updated = 0 ∧
    (importData c6Store (exportData c6Store) demoUuid "t1" demoDateGt).2.skipped = 0 := by
  refine ⟨by decide, fun x => rfl, by decide, by decide, by decide⟩

/-! ### C7 -/

/-- C7 counterexample: the scenario as stated does not pin down a local
identity named Annie Lee.  Without one, the identity pass takes its
not-found branch: the incoming Annie Lee is inserted wholesale together
with the claimed alias A.Lee and *no* AliasConflict is reported -- the
result does not contain exactly one conflict.  (A.Lee still resolves to
Ann Lee only because the older identity precedes the new one in the
list.) -/
theorem alias_conflict_scenario_cex :
    (importData c7Store c7Payload demoUuid "t1" demoDateGt).2.conflicts = [] ∧
    ((importData c7Store c7Payload demoUuid "t1" demoDateGt).1.athletes.map athleteNames) =
      [["Ann Lee", "A.Lee"], ["Annie Lee", "A.Lee"]] ∧
    resolveAthleteName (importData c7Store c7Payload demoUuid "t1" demoDateGt).1 "A.Lee" =
      "Ann Lee" := by
  refine ⟨by decide, by decide, by decide⟩

/-- C7 amended: when the local snapshot also contains an identity whose
canonical name is Annie Lee, reconciling the same payload yields
exactly one AliasConflict (alias A.Lee, local owner Ann Lee, incoming
Annie Lee), the alias is not reassigned (Annie Lee's alias list stays
empty), and A.Lee still resolves to Ann Lee afterwards. -/
theorem alias_conflict_scenario_amended :
    (importData c7StoreB c7Payload demoUuid "t1" demoDateGt).2.conflicts =
      [⟨"A.Lee", "Ann Lee", "Annie Lee"⟩] ∧
    ((importData c7StoreB c7Payload demoUuid "t1" demoDateGt).1.athletes.map athleteNames) =
      [["Ann Lee", "A.Lee"], ["Annie Lee"]] ∧
    resolveAthleteName (importData c7StoreB c7Payload demoUuid "t1" demoDateGt).1 "A.Lee" =
      "Ann Lee" := by
  refine ⟨by decide, by decide, by decide⟩

/-! ### C4 -/

/-- C4: mergeAthletes throws exactly when the two arguments resolve to
the same canonical name (self-merge) or when no identity carries the
resolved source name (or the resolved target name) as its canonical
name; whenever it throws, the persisted snapshot is unchanged -- the
throw happens before the operation's saveData call. -/
theorem merge_error_iff_atomic (s : StoredData) (f t now : String) :
    ((∃ e, mergeAthletes s f t now = Except.error e) ↔
      (resolveAthleteName s f = resolveAthleteName s t ∨
        (∀ a ∈ s.athletes, a.canonicalName ≠ resolveAthleteName s f) ∨
        (∀ a ∈ s.athletes, a.canonicalName ≠ resolveAthleteName s t))) ∧
    (∀ e, mergeAthletes s f t now = Except.error e →
      applyOp s (.merge f t now) = s) := by
  constructor
  · unfold mergeAthletes
    dsimp only
    split
    next heq =>
      simp only [beq_iff_eq] at heq
      simp [heq]
    next hne =>
      simp only [beq_iff_eq] at hne
      cases hf : s.athletes.find? (fun a => a.canonicalName == resolveAthleteName s f) with
      | none =>
        have hall := List.find?_eq_none.mp hf
        simp only [hf]
        constructor
        · intro _
          exact Or.inr (Or.inl (fun a ha => by simpa using hall a ha))
        · intro _; exact ⟨_, rfl⟩
      | some fa =>
        cases ht : s.athletes.find? (fun a => a.canonicalName == resolveAthleteName s t) with
        | none =>
          have hall := List.find?_eq_none.mp ht
          simp only [hf, ht]
          constructor
          · intro _
            exact Or.inr (Or.inr (fun a ha => by simpa using hall a ha))
          · intro _; exact ⟨_, rfl⟩
        | some ta =>
          simp only [hf, ht]
          constructor
          · rintro ⟨e, he⟩
            exact absurd he (by simp)
          · rintro (h | h | h)
            · exact absurd h hne
            · exact absurd (by simpa using List.find?_some hf)
                (h fa (List.mem_of_find?_eq_some hf))
            · exact absurd (by simpa using List.find?_some ht)
                (h ta (List.mem_of_find?_eq_some ht))
  · intro e he
    simp [applyOp, he]

/-- Witness for C4: a self-merge through an alias throws and leaves the
demo snapshot unchanged. -/
theorem merge_error_iff_atomic_witness :
    resolveAthleteName demoStore "A" = resolveAthleteName demoStore "Ann" ∧
    applyOp demoStore (.merge "A" "Ann" "t1") = demoStore :=
  ⟨by decide,
    (merge_error_iff_atomic demoStore "A" "Ann" "t1").2
      "Cannot merge athlete with itself" rfl⟩

/-! ### Generic list lemmas for the invariant proofs -/

/-- allStoreNames distributes over append. -/
theorem allStoreNames_append (l₁ l₂ : List Athlete) :
    allStoreNames (l₁ ++ l₂) = allStoreNames l₁ ++ allStoreNames l₂ := by
  simp [allStoreNames]

/-- allStoreNames of a cons. -/
theorem allStoreNames_cons (a : Athlete) (l : List Athlete) :
    allStoreNames (a :: l) = athleteNames a ++ allStoreNames l := by
  simp [allStoreNames]

/-- Membership in allStoreNames. -/
theorem mem_allStoreNames {x : String} {l : List Athlete} :
    x ∈ allStoreNames l ↔ ∃ a ∈ l, x ∈ athleteNames a := by
  simp [allStoreNames]

/-- A sublist of athletes owns a sublist of the names. -/
theorem allStoreNames_sublist {l₁ l₂ : List Athlete} (h : l₁.Sublist l₂) :
    (allStoreNames l₁).Sublist (allStoreNames l₂) := by
  induction h with
  | slnil => simp [allStoreNames]
  | cons a _ ih =>
    rw [allStoreNames_cons]
    exact ih.trans (List.sublist_append_right _ _)
  | cons₂ a _ ih =>
    rw [allStoreNames_cons, allStoreNames_cons]
    exact List.Sublist.append (List.Sublist.refl _) ih

/-- find? produces a decomposition: the found element with everything
before it failing the predicate. -/
theorem find?_decomp {p : α → Bool} {l : List α} {a : α} (h : l.find? p = some a) :
    ∃ l₁ l₂, l = l₁ ++ a :: l₂ ∧ (∀ x ∈ l₁, p x = false) := by
  induction l with
  | nil => simp at h
  | cons x xs ih =>
    by_cases hx : p x
    · rw [List.find?_cons_of_pos _ hx] at h
      have hxa : x = a := by simpa using h
      exact ⟨[], xs, by simp [hxa], by simp⟩
    · rw [List.find?_cons_of_neg _ (by simpa using hx)] at h
      obtain ⟨l₁, l₂, he, hall⟩ := ih h
      refine ⟨x :: l₁, l₂, by simp [he], ?_⟩
      intro y hy
      rcases List.mem_cons.mp hy with rfl | hy'
      · simpa using hx
      · exact hall y hy'

/-- updateFirst on a decomposition whose head part all fails `p`. -/
theorem updateFirst_of_decomp {p : α → Bool} {f : α → α} {l₁ l₂ : List α} {a : α}
    (h₁ : ∀ x ∈ l₁, p x = false) (h₂ : p a = true) :
    updateFirst p f (l₁ ++ a :: l₂) = l₁ ++ f a :: l₂ := by
  induction l₁ with
  | nil =>
    show updateFirst p f (a :: l₂) = f a :: l₂
    simp [updateFirst, h₂]
  | cons x xs ih =>
    have hx := h₁ x (by simp)
    show updateFirst p f (x :: (xs ++ a :: l₂)) = x :: (xs ++ f a :: l₂)
    rw [updateFirst, if_neg (by simp [hx]), ih (fun y hy => h₁ y (by simp [hy]))]

/-- The deduplicating fold only appends a sublist of its input. -/
theorem foldl_dedupPush_eq_append (l acc : List String) :
    ∃ w, l.foldl dedupPush acc = acc ++ w ∧ w.Sublist l := by
  induction l generalizing acc with
  | nil => exact ⟨[], by simp, by simp⟩
  | cons x xs ih =>
    by_cases hx : acc.contains x
    · obtain ⟨w, he, hs⟩ := ih acc
      refine ⟨w, ?_, hs.cons x⟩
      simp only [List.foldl_cons, dedupPush]
      rw [if_pos hx]
      exact he
    · obtain ⟨w, he, hs⟩ := ih (acc ++ [x])
      refine ⟨x :: w, ?_, hs.cons₂ x⟩
      simp only [List.foldl_cons, dedupPush, hx]
      rw [if_neg (by simp [hx])]
      simpa [List.append_assoc] using he

/-- Membership after the deduplicating fold. -/
theorem mem_foldl_dedupPush {l acc : List String} {y : String} :
    y ∈ l.foldl dedupPush acc ↔ y ∈ acc ∨ y ∈ l := by
  induction l generalizing acc with
  | nil => simp
  | cons x xs ih =>
    simp only [List.foldl_cons, dedupPush]
    by_cases hx : acc.contains x
    · rw [if_pos hx, ih]
      have : x ∈ acc := by simpa using hx
      constructor
      · rintro (h | h)
        · exact Or.inl h
        · exact Or.inr (by simp [h])
      · rintro (h | h)
        · exact Or.inl h
        · rcases List.mem_cons.mp h with rfl | h'
          · exact Or.inl this
          · exact Or.inr h'
    · rw [if_neg hx, ih]
      simp only [List.mem_append, List.mem_singleton, List.mem_cons]
      tauto

/-- Under the global invariant each identity's own name list has no
duplicate. -/
theorem nodup_athleteNames_of_mem {l : List Athlete}
    (h : (allStoreNames l).Nodup) {a : Athlete} (ha : a ∈ l) :
    (athleteNames a).Nodup := by
  obtain ⟨A, B, rfl⟩ := List.append_of_mem ha
  rw [allStoreNames_append, allStoreNames_cons] at h
  exact (h.of_append_right).of_append_left

/-- Under the global invariant a name string belongs to at most one
identity: two owners of the same name are the same athlete record. -/
theorem nodup_owner_unique {l : List Athlete} (h : (allStoreNames l).Nodup)
    {fa b : Athlete} (hfa : fa ∈ l) (hb : b ∈ l) {x : String}
    (hx : x ∈ athleteNames fa) (hx' : x ∈ athleteNames b) : b = fa := by
  obtain ⟨A, B, rfl⟩ := List.append_of_mem hfa
  rw [allStoreNames_append, allStoreNames_cons] at h
  rcases List.mem_append.mp hb with hbA | hbM
  · exfalso
    have h1 : x ∈ allStoreNames A := mem_allStoreNames.mpr ⟨b, hbA, hx'⟩
    have h2 : x ∈ athleteNames fa ++ allStoreNames B := List.mem_append.mpr (Or.inl hx)
    exact List.disjoint_of_nodup_append h h1 h2
  · rcases List.mem_cons.mp hbM with rfl | hbB
    · rfl
    · exfalso
      have hmid := h.of_append_right
      have h1 : x ∈ allStoreNames B := mem_allStoreNames.mpr ⟨b, hbB, hx'⟩
      exact List.disjoint_of_nodup_append hmid hx h1

/-- Inverse analysis of resolution: a name resolving to `rf` is `rf`
itself, or is an alias of an identity whose canonical name is `rf` (and
then it is nobody's canonical name). -/
theorem resolve_eq_cases {s : StoredData} {A rf : String}
    (h : resolveAthleteName s A = rf) :
    A = rf ∨ ((∀ b ∈ s.athletes, b.canonicalName ≠ A) ∧
      ∃ ow ∈ s.athletes, A ∈ ow.aliases ∧ ow.canonicalName = rf) := by
  unfold resolveAthleteName at h
  cases hc : s.athletes.find? (fun a => a.canonicalName == A) with
  | some a => rw [hc] at h; exact Or.inl h
  | none =>
    rw [hc] at h
    cases ha : s.athletes.find? (fun a => a.aliases.contains A) with
    | some ow =>
      rw [ha] at h
      refine Or.inr ⟨?_, ow, List.mem_of_find?_eq_some ha, ?_, h⟩
      · intro b hb
        have := List.find?_eq_none.mp hc b hb
        simpa using this
      · simpa using List.find?_some ha
    | none => rw [ha] at h; exact Or.inl h

/-- Structure of a successful merge: both resolved names are found (and
distinct), the snapshot's records are rewritten from the resolved
source name to the resolved target name, and the athlete list is the
mergedAthletes transformation. -/
theorem mergeAthletes_ok_struct {s : StoredData} {f t now : String} {s' : StoredData}
    (hm : mergeAthletes s f t now = .ok s') :
    ∃ fa ta,
      s.athletes.find? (fun a => a.canonicalName == resolveAthleteName s f) = some fa ∧
      s.athletes.find? (fun a => a.canonicalName == resolveAthleteName s t) = some ta ∧
      resolveAthleteName s f ≠ resolveAthleteName s t ∧
      s' = { s with
             athletes := mergedAthletes s fa ta (resolveAthleteName s f)
               (resolveAthleteName s t) now,
             swimTimes := s.swimTimes.map (fun r =>
               if r.athleteName == resolveAthleteName s f then
                 { r with athleteName := resolveAthleteName s t } else r) } := by
  unfold mergeAthletes at hm
  dsimp only at hm
  split at hm
  · exact absurd hm (by simp)
  next hne =>
    split at hm
    · exact absurd hm (by simp)
    next fa hf =>
      split at hm
      · exact absurd hm (by simp)
      next ta ht =>
        refine ⟨fa, ta, hf, ht, by simpa using hne, ?_⟩
        have := hm
        injection this with h'
        exact h'.symm

/-- The rewrite of the losing canonical name inside an alias list is the
identity when the list does not contain that name. -/
theorem aliasRewrite_id {l : List String} {rf rt : String} (h : rf ∉ l) :
    (l.map (fun al => if al == rf then rt else al)) = l := by
  have : ∀ al ∈ l, (fun al => if al == rf then rt else al) al = id al := by
    intro al hal
    have : al ≠ rf := fun he => h (he ▸ hal)
    simp [this]
  rw [List.map_congr_left this, List.map_id]

/-- The merged alias list is bounded, as a multiset, by the two
identities' alias material: the winner's aliases plus the resolved
source name and the loser's aliases. -/
theorem mergedAliases_coe_le (ta fa : Athlete) (rf : String) :
    (↑(mergedAliases ta fa rf) : Multiset String) ≤ ↑ta.aliases + ↑(rf :: fa.aliases) := by
  unfold mergedAliases
  obtain ⟨w, hw, hws⟩ := foldl_dedupPush_eq_append fa.aliases
    (if ta.aliases.contains rf then ta.aliases else ta.aliases ++ [rf])
  rw [hw]
  have hwle : (↑w : Multiset String) ≤ ↑fa.aliases := Multiset.coe_le.mpr hws.subperm
  by_cases hc : ta.aliases.contains rf
  · rw [if_pos hc]
    rw [← Multiset.coe_add]
    have h1 : (↑w : Multiset String) ≤ ↑(rf :: fa.aliases) := by
      refine le_trans hwle ?_
      rw [← Multiset.cons_coe]
      exact Multiset.le_cons_self _ _
    exact add_le_add_left h1 _
  · rw [if_neg hc]
    rw [← Multiset.coe_add, ← Multiset.coe_add]
    have h2 : (↑([rf] ++ w) : Multiset String) ≤ ↑(rf :: fa.aliases) := by
      rw [← Multiset.coe_add, ← Multiset.cons_coe]
      show (↑[rf] : Multiset String) + ↑w ≤ rf ::ₘ ↑fa.aliases
      have : (↑[rf] : Multiset String) + ↑w = rf ::ₘ (↑w : Multiset String) := by
        rw [Multiset.coe_add, List.singleton_append, ← Multiset.cons_coe]
      rw [this]
      exact Multiset.cons_le_cons rf hwle
    calc ((↑ta.aliases : Multiset String) + ↑[rf]) + ↑w
        = ↑ta.aliases + ((↑[rf] : Multiset String) + ↑w) := by abel
      _ ≤ ↑ta.aliases + ↑(rf :: fa.aliases) := by
          rw [Multiset.coe_add]
          exact add_le_add_left h2 _

/-- Dropping the loser (by id) from a segment containing it gives back,
together with the loser's own names, at most the segment's names. -/
theorem filter_out_coe_le {Z : List Athlete} {fa : Athlete} (hfa : fa ∈ Z) :
    (↑(allStoreNames (Z.filter (fun a => a.id != fa.id))) : Multiset String) +
      ↑(athleteNames fa) ≤ ↑(allStoreNames Z) := by
  obtain ⟨Z₁, Z₂, rfl⟩ := List.append_of_mem hfa
  rw [List.filter_append, List.filter_cons]
  rw [if_neg (by simp)]
  rw [allStoreNames_append, allStoreNames_append, allStoreNames_cons]
  have h1 : (↑(allStoreNames (Z₁.filter (fun a => a.id != fa.id))) : Multiset String) ≤
      ↑(allStoreNames Z₁) :=
    Multiset.coe_le.mpr (allStoreNames_sublist (List.filter_sublist _)).subperm
  have h2 : (↑(allStoreNames (Z₂.filter (fun a => a.id != fa.id))) : Multiset String) ≤
      ↑(allStoreNames Z₂) :=
    Multiset.coe_le.mpr (allStoreNames_sublist (List.filter_sublist _)).subperm
  rw [← Multiset.coe_add, ← Multiset.coe_add, ← Multiset.coe_add]
  calc (↑(allStoreNames (Z₁.filter (fun a => a.id != fa.id))) : Multiset String) +
        ↑(allStoreNames (Z₂.filter (fun a => a.id != fa.id))) + ↑(athleteNames fa)
      ≤ (↑(allStoreNames Z₁) : Multiset String) + ↑(allStoreNames Z₂) + ↑(athleteNames fa) :=
        add_le_add_right (add_le_add h1 h2) _
    _ = ↑(allStoreNames Z₁) + (↑(athleteNames fa) + ↑(allStoreNames Z₂)) := by abel

/-- A successful merge preserves the global alias-uniqueness invariant:
the loser's names all move into the winner's alias list, names are
never duplicated, and the defensive alias rewrite is vacuous under the
invariant. -/
theorem merge_preserves_namesNodup {s s' : StoredData} {f t now : String}
    (h : namesNodup s) (hm : mergeAthletes s f t now = .ok s') : namesNodup s' := by
  obtain ⟨fa, ta, hf, ht, hne, rfl⟩ := mergeAthletes_ok_struct hm
  have hfa_mem : fa ∈ s.athletes := List.mem_of_find?_eq_some hf
  have hfa_c : fa.canonicalName = resolveAthleteName s f := by simpa using List.find?_some hf
  have hta_c : ta.canonicalName = resolveAthleteName s t := by simpa using List.find?_some ht
  have hglob : (allStoreNames s.athletes).Nodup := h
  have hrf_not : ∀ b ∈ s.athletes, resolveAthleteName s f ∉ b.aliases := by
    intro b hb hmem
    have hb_eq : b = fa :=
      nodup_owner_unique hglob hfa_mem hb
        (by rw [athleteNames, hfa_c]; exact List.mem_cons_self _ _)
        (by rw [athleteNames]; exact List.mem_cons_of_mem _ hmem)
    have hnd := nodup_athleteNames_of_mem hglob hfa_mem
    rw [athleteNames] at hnd
    have hni : fa.canonicalName ∉ fa.aliases := (List.nodup_cons.mp hnd).1
    rw [hb_eq] at hmem
    rw [hfa_c] at hni
    exact hni hmem
  obtain ⟨X, Y, hXY, hX⟩ := find?_decomp ht
  have h1 : updateFirst (fun a => a.canonicalName == resolveAthleteName s t)
      (fun a => { a with
        aliases := mergedAliases ta fa (resolveAthleteName s f), updatedAt := now })
      s.athletes =
      X ++ { ta with
             aliases := mergedAliases ta fa (resolveAthleteName s f),
             updatedAt := now } :: Y := by
    rw [hXY]
    exact updateFirst_of_decomp hX (by simp [hta_c])
  have hmem_sub : ∀ b, b ∈ X ∨ b ∈ Y → b ∈ s.athletes := by
    intro b hb
    rw [hXY]
    rcases hb with hb | hb
    · exact List.mem_append.mpr (Or.inl hb)
    · exact List.mem_append.mpr (Or.inr (List.mem_cons_of_mem _ hb))
  have hg : ∀ b, b ∈ X ∨ b ∈ Y →
      (if (b.id == ta.id) = true then b
       else { b with aliases := b.aliases.map (fun al =>
         if al == resolveAthleteName s f then resolveAthleteName s t else al) }) = b := by
    intro b hb
    by_cases hid : (b.id == ta.id) = true
    · rw [if_pos hid]
    · rw [if_neg hid, aliasRewrite_id (hrf_not b (hmem_sub b hb))]
  have h2 : mergedAthletes s fa ta (resolveAthleteName s f) (resolveAthleteName s t) now =
      (X ++ { ta with
              aliases := mergedAliases ta fa (resolveAthleteName s f),
              updatedAt := now } :: Y).filter (fun a => a.id != fa.id) := by
    unfold mergedAthletes
    rw [h1, List.map_append, List.map_cons]
    rw [(List.map_congr_left (fun b hb => hg b (Or.inl hb))).trans (List.map_id X)]
    rw [(List.map_congr_left (fun b hb => hg b (Or.inr hb))).trans (List.map_id Y)]
    rw [if_pos (by simp)]
  show (allStoreNames
    (mergedAthletes s fa ta (resolveAthleteName s f) (resolveAthleteName s t) now)).Nodup
  rw [h2, List.filter_append, List.filter_cons]
  by_cases hq : (({ ta with
      aliases := mergedAliases ta fa (resolveAthleteName s f),
      updatedAt := now } : Athlete).id != fa.id) = true
  · rw [if_pos hq]
    have hta_names_le : (↑(athleteNames { ta with
        aliases := mergedAliases ta fa (resolveAthleteName s f),
        updatedAt := now }) : Multiset String) ≤
        ↑(athleteNames ta) + ↑(athleteNames fa) := by
      have hml := mergedAliases_coe_le ta fa (resolveAthleteName s f)
      calc (↑(athleteNames { ta with
            aliases := mergedAliases ta fa (resolveAthleteName s f),
            updatedAt := now }) : Multiset String)
          = ta.canonicalName ::ₘ ↑(mergedAliases ta fa (resolveAthleteName s f)) := by
            rw [athleteNames, Multiset.cons_coe]
        _ ≤ ta.canonicalName ::ₘ
            ((↑ta.aliases : Multiset String) + ↑(resolveAthleteName s f :: fa.aliases)) :=
            Multiset.cons_le_cons _ hml
        _ = (ta.canonicalName ::ₘ (↑ta.aliases : Multiset String)) +
            ↑(resolveAthleteName s f :: fa.aliases) := (Multiset.cons_add _ _ _).symm
        _ = ↑(athleteNames ta) + ↑(athleteNames fa) := by
            rw [athleteNames, athleteNames, Multiset.cons_coe, hfa_c]
    have hfa_XY : fa ∈ X ∨ fa ∈ Y := by
      have hin : fa ∈ X ++ ta :: Y := hXY ▸ hfa_mem
      rcases List.mem_append.mp hin with h' | h'
      · exact Or.inl h'
      · rcases List.mem_cons.mp h' with he | h''
        · exact absurd (by rw [← hfa_c, ← hta_c, he]) hne
        · exact Or.inr h''
    suffices hle : (↑(allStoreNames
        (X.filter (fun a => a.id != fa.id) ++
          { ta with
            aliases := mergedAliases ta fa (resolveAthleteName s f),
            updatedAt := now } :: Y.filter (fun a => a.id != fa.id))) : Multiset String) ≤
        ↑(allStoreNames s.athletes) by
      exact Multiset.coe_nodup.mp (Multiset.nodup_of_le hle (Multiset.coe_nodup.mpr hglob))
    rw [allStoreNames_append, allStoreNames_cons]
    rw [hXY, allStoreNames_append, allStoreNames_cons]
    rw [← Multiset.coe_add, ← Multiset.coe_add, ← Multiset.coe_add, ← Multiset.coe_add]
    have hYle : (↑(allStoreNames (Y.filter (fun a => a.id != fa.id))) : Multiset String) ≤
        ↑(allStoreNames Y) :=
      Multiset.coe_le.mpr (allStoreNames_sublist (List.filter_sublist _)).subperm
    have hXle : (↑(allStoreNames (X.filter (fun a => a.id != fa.id))) : Multiset String) ≤
        ↑(allStoreNames X) :=
      Multiset.coe_le.mpr (allStoreNames_sublist (List.filter_sublist _)).subperm
    rcases hfa_XY with hfaX | hfaY
    · have hZ := filter_out_coe_le (Z := X) hfaX
      calc (↑(allStoreNames (X.filter (fun a => a.id != fa.id))) : Multiset String) +
            (↑(athleteNames { ta with
              aliases := mergedAliases ta fa (resolveAthleteName s f),
              updatedAt := now }) + ↑(allStoreNames (Y.filter (fun a => a.id != fa.id))))
          ≤ ↑(allStoreNames (X.filter (fun a => a.id != fa.id))) +
            ((↑(athleteNames ta) + ↑(athleteNames fa)) + ↑(allStoreNames Y)) :=
            add_le_add_left (add_le_add hta_names_le hYle) _
        _ = (↑(allStoreNames (X.filter (fun a => a.id != fa.id))) + ↑(athleteNames fa)) +
            (↑(athleteNames ta) + ↑(allStoreNames Y)) := by abel
        _ ≤ ↑(allStoreNames X) + (↑(athleteNames ta) + ↑(allStoreNames Y)) :=
            add_le_add_right hZ _
    · have hZ := filter_out_coe_le (Z := Y) hfaY
      calc (↑(allStoreNames (X.filter (fun a => a.id != fa.id))) : Multiset String) +
            (↑(athleteNames { ta with
              aliases := mergedAliases ta fa (resolveAthleteName s f),
              updatedAt := now }) + ↑(allStoreNames (Y.filter (fun a => a.id != fa.id))))
          ≤ ↑(allStoreNames X) +
            ((↑(athleteNames ta) + ↑(athleteNames fa)) +
              ↑(allStoreNames (Y.filter (fun a => a.id != fa.id)))) :=
            add_le_add hXle (add_le_add_right hta_names_le _)
        _ = ↑(allStoreNames X) + (↑(athleteNames ta) +
            (↑(allStoreNames (Y.filter (fun a => a.id != fa.id))) + ↑(athleteNames fa))) := by
            abel
        _ ≤ ↑(allStoreNames X) + (↑(athleteNames ta) + ↑(allStoreNames Y)) :=
            add_le_add_left (add_le_add_left hZ _) _
  · rw [if_neg hq]
    have hsub : (allStoreNames
        (X.filter (fun a => a.id != fa.id) ++ Y.filter (fun a => a.id != fa.id))).Sublist
        (allStoreNames s.athletes) := by
      rw [hXY,
        allStoreNames_append (X.filter (fun a => a.id != fa.id))
          (Y.filter (fun a => a.id != fa.id)),
        allStoreNames_append X (ta :: Y), allStoreNames_cons]
      exact List.Sublist.append (allStoreNames_sublist (List.filter_sublist _))
        ((allStoreNames_sublist (List.filter_sublist _)).trans
          (List.sublist_append_right _ _))
    exact List.Nodup.sublist hsub hglob

/-- An unknown name does not occur among the store's names. -/
theorem not_mem_allStoreNames_of_unknown {s : StoredData} {n : String}
    (hu : knownName s n = false) : n ∉ allStoreNames s.athletes := by
  intro hmem
  obtain ⟨a, ha, hn⟩ := mem_allStoreNames.mp hmem
  have hforall := List.any_eq_false.mp (by simpa only [knownName] using hu) a ha
  simp only [Bool.or_eq_true, not_or] at hforall
  rw [athleteNames] at hn
  rcases List.mem_cons.mp hn with rfl | hn'
  · exact hforall.1 (by simp)
  · exact hforall.2 (by simpa using hn')

/-- ensureAthleteExists on a resolved name preserves the global
invariant: the resolved name is either already a canonical name (no-op)
or entirely unknown (a fresh identity with a fresh name is appended). -/
theorem ensure_resolve_preserves_namesNodup (s : StoredData) (n freshId now : String)
    (h : namesNodup s) :
    namesNodup (ensureAthleteExists s (resolveAthleteName s n) freshId now) := by
  by_cases hex : s.athletes.any (fun b => b.canonicalName == resolveAthleteName s n) = true
  · unfold ensureAthleteExists
    rw [if_pos hex]
    exact h
  · rcases resolve_cases s n with ⟨a, ha, he⟩ | ⟨hx, hu⟩
    · exact absurd (List.any_eq_true.mpr ⟨a, ha, by simp [he]⟩) hex
    · unfold ensureAthleteExists
      rw [if_neg hex]
      show (allStoreNames
        (s.athletes ++ [⟨freshId, resolveAthleteName s n, [], now, now⟩])).Nodup
      rw [allStoreNames_append]
      refine List.Nodup.append h (by simp [allStoreNames, athleteNames]) ?_
      intro x hx1 hx2
      have : x = resolveAthleteName s n := by
        simpa [allStoreNames, athleteNames] using hx2
      rw [this, hx] at hx1
      exact not_mem_allStoreNames_of_unknown hu hx1

/-- createSwimTime preserves the global invariant. -/
theorem createSwimTime_preserves_namesNodup (s : StoredData) (t : NewSwimTime)
    (fa ft now : String) (h : namesNodup s) :
    namesNodup (createSwimTime s t fa ft now).1 :=
  ensure_resolve_preserves_namesNodup s t.athleteName fa now h

/-- updateSwimTime never changes the persisted athlete list: the
identity that its internal ensureAthleteExists persists is clobbered by
the final save of the stale snapshot. -/
theorem updateSwimTime_athletes (s : StoredData) (id : String) (u : SwimTimeUpdate)
    (fa now : String) : (updateSwimTime s id u fa now).1.athletes = s.athletes := by
  unfold updateSwimTime
  cases hidx : s.swimTimes.findIdx? (fun t => t.id == id) with
  | none => rfl
  | some i =>
    dsimp only
    cases hget : s.swimTimes[i]? with
    | none => rfl
    | some old => rfl

/-- deleteSwimTime never changes the athlete list. -/
theorem deleteSwimTime_athletes (s : StoredData) (id : String) :
    (deleteSwimTime s id).1.athletes = s.athletes := by
  unfold deleteSwimTime
  dsimp only
  split
  · rfl
  · rfl

/-- A successful renameAthleteCanonical preserves the global invariant:
the canonical name and the chosen alias swap roles inside one identity,
leaving the multiset of names unchanged. -/
theorem rename_preserves_namesNodup {s s' : StoredData} {c n now : String}
    (h : namesNodup s) (hm : renameAthleteCanonical s c n now = .ok s') :
    namesNodup s' := by
  unfold renameAthleteCanonical at hm
  split at hm
  · exact absurd hm (by simp)
  next ath hfind =>
    split at hm
    · exact absurd hm (by simp)
    next hcond =>
      split at hm
      next heq =>
        injection hm with h'
        exact h' ▸ h
      next hne' =>
        injection hm with h'
        have hnc : n ≠ c := by simpa using hne'
        have hcontains : ath.aliases.contains n = true := by
          by_contra hc
          exact hcond (by simp_all)
        have hmem_n : n ∈ ath.aliases := by simpa using hcontains
        have hath_mem : ath ∈ s.athletes := List.mem_of_find?_eq_some hfind
        have hath_c : ath.canonicalName = c := by simpa using List.find?_some hfind
        obtain ⟨X, Y, hXY, hX⟩ := find?_decomp hfind
        have h1 : updateFirst (fun a => a.canonicalName == c)
            (fun a => { a with
              aliases := (a.aliases.filter (fun x => x != n)) ++ [c],
              canonicalName := n, updatedAt := now }) s.athletes =
            X ++ { ath with
                   aliases := (ath.aliases.filter (fun x => x != n)) ++ [c],
                   canonicalName := n, updatedAt := now } :: Y := by
          rw [hXY]
          exact updateFirst_of_decomp hX (by simp [hath_c])
        have haliases_nd : ath.aliases.Nodup := by
          have hnd := nodup_athleteNames_of_mem h hath_mem
          rw [athleteNames] at hnd
          exact (List.nodup_cons.mp hnd).2
        have hperm : ath.aliases.Perm (n :: ath.aliases.filter (fun x => x != n)) := by
          rw [← List.Nodup.erase_eq_filter haliases_nd n]
          exact List.perm_cons_erase hmem_n
        have hperm_names : (athleteNames { ath with
            aliases := (ath.aliases.filter (fun x => x != n)) ++ [c],
            canonicalName := n, updatedAt := now }).Perm (athleteNames ath) := by
          rw [athleteNames, athleteNames, hath_c]
          have p1 : (n :: (ath.aliases.filter (fun x => x != n) ++ [c])).Perm
              (n :: ([c] ++ ath.aliases.filter (fun x => x != n))) :=
            List.Perm.cons n List.perm_append_comm
          have p2 : (n :: ([c] ++ ath.aliases.filter (fun x => x != n))).Perm
              (c :: n :: ath.aliases.filter (fun x => x != n)) :=
            List.Perm.swap c n _
          have p3 : (c :: n :: ath.aliases.filter (fun x => x != n)).Perm
              (c :: ath.aliases) := List.Perm.cons c hperm.symm
          exact (p1.trans p2).trans p3
        rw [← h']
        show (allStoreNames (updateFirst (fun a => a.canonicalName == c)
          (fun a => { a with
            aliases := (a.aliases.filter (fun x => x != n)) ++ [c],
            canonicalName := n, updatedAt := now }) s.athletes)).Nodup
        rw [h1]
        have hperm_all : (allStoreNames (X ++ { ath with
            aliases := (ath.aliases.filter (fun x => x != n)) ++ [c],
            canonicalName := n, updatedAt := now } :: Y)).Perm
            (allStoreNames (X ++ ath :: Y)) := by
          rw [allStoreNames_append, allStoreNames_cons, allStoreNames_append,
            allStoreNames_cons]
          exact List.Perm.append (List.Perm.refl _)
            (List.Perm.append hperm_names (List.Perm.refl _))
        exact hperm_all.symm.nodup (hXY ▸ h)

/-- A successful unmergeAlias preserves the global invariant: the alias
leaves its owner's list and reappears as the canonical name of the new
identity, leaving the multiset of names unchanged. -/
theorem unmerge_preserves_namesNodup {s s' : StoredData} {al fid now : String}
    (h : namesNodup s) (hm : unmergeAlias s al fid now = .ok s') :
    namesNodup s' := by
  unfold unmergeAlias at hm
  split at hm
  · exact absurd hm (by simp)
  next ow hfind =>
    injection hm with h'
    have how_mem : ow ∈ s.athletes := List.mem_of_find?_eq_some hfind
    have hmem_al : al ∈ ow.aliases := by simpa using List.find?_some hfind
    obtain ⟨X, Y, hXY, hX⟩ := find?_decomp hfind
    have h1 : updateFirst (fun a => a.aliases.contains al)
        (fun a => { a with
          aliases := a.aliases.filter (fun x => x != al), updatedAt := now }) s.athletes =
        X ++ { ow with
               aliases := ow.aliases.filter (fun x => x != al), updatedAt := now } :: Y := by
      rw [hXY]
      exact updateFirst_of_decomp hX (by simpa using hmem_al)
    have haliases_nd : ow.aliases.Nodup := by
      have hnd := nodup_athleteNames_of_mem h how_mem
      rw [athleteNames] at hnd
      exact (List.nodup_cons.mp hnd).2
    have hperm : ow.aliases.Perm (al :: ow.aliases.filter (fun x => x != al)) := by
      rw [← List.Nodup.erase_eq_filter haliases_nd al]
      exact List.perm_cons_erase hmem_al
    rw [← h']
    show (allStoreNames (updateFirst (fun a => a.aliases.contains al)
      (fun a => { a with
        aliases := a.aliases.filter (fun x => x != al), updatedAt := now }) s.athletes ++
      [⟨fid, al, [], now, now⟩])).Nodup
    rw [h1]
    have hperm_all : (allStoreNames ((X ++ { ow with
        aliases := ow.aliases.filter (fun x => x != al), updatedAt := now } :: Y) ++
        [⟨fid, al, [], now, now⟩])).Perm (allStoreNames (X ++ ow :: Y)) := by
      refine Multiset.coe_eq_coe.mp ?_
      rw [allStoreNames_append (X ++ _ :: Y) [⟨fid, al, [], now, now⟩],
        allStoreNames_append X, allStoreNames_append X, allStoreNames_cons,
        allStoreNames_cons]
      rw [← Multiset.coe_add, ← Multiset.coe_add, ← Multiset.coe_add, ← Multiset.coe_add,
        ← Multiset.coe_add]
      have hcoe : (↑ow.aliases : Multiset String) =
          ↑(al :: ow.aliases.filter (fun x => x != al)) := Multiset.coe_eq_coe.mpr hperm
      rw [allStoreNames_cons ow Y, ← Multiset.coe_add]
      simp only [athleteNames]
      simp only [← Multiset.cons_coe]
      rw [hcoe]
      simp only [← Multiset.cons_coe]
      simp only [← Multiset.singleton_add]
      have hnil : (↑(allStoreNames ([] : List Athlete)) : Multiset String) = 0 := rfl
      have hnil2 : (↑([] : List String) : Multiset String) = 0 := rfl
      rw [hnil]
      abel
    exact hperm_all.symm.nodup (hXY ▸ h)

/-- mergeAthletesWithFinalName leaves an invariant-satisfying snapshot
behind: its merge half and (when reached) its rename half each preserve
the invariant, and every error path keeps the last persisted state. -/
theorem mergeFinal_preserves_namesNodup (s : StoredData) (f t fin now : String)
    (h : namesNodup s) :
    namesNodup (mergeAthletesWithFinalName s f t fin now).1 := by
  unfold mergeAthletesWithFinalName
  cases hm : mergeAthletes s f t now with
  | error e => exact h
  | ok s1 =>
    have h1 := merge_preserves_namesNodup h hm
    dsimp only
    split
    · cases hr : renameAthleteCanonical s1 (resolveAthleteName s1 t) fin now with
      | error e => exact h1
      | ok s2 => exact rename_preserves_namesNodup h1 hr
    · exact h1

/-- Every public mutating operation preserves the global invariant. -/
theorem applyOp_preserves_namesNodup (s : StoredData) (op : EngineOp)
    (h : namesNodup s) : namesNodup (applyOp s op) := by
  cases op with
  | createST t fa ft now => exact createSwimTime_preserves_namesNodup s t fa ft now h
  | updateST id u fa now =>
    show (allStoreNames (updateSwimTime s id u fa now).1.athletes).Nodup
    rw [updateSwimTime_athletes]
    exact h
  | deleteST id =>
    show (allStoreNames (deleteSwimTime s id).1.athletes).Nodup
    rw [deleteSwimTime_athletes]
    exact h
  | merge f t now =>
    show namesNodup (match mergeAthletes s f t now with
      | .ok s' => s'
      | .error _ => s)
    cases hm : mergeAthletes s f t now with
    | ok s' => exact merge_preserves_namesNodup h hm
    | error e => exact h
  | rename c n now =>
    show namesNodup (match renameAthleteCanonical s c n now with
      | .ok s' => s'
      | .error _ => s)
    cases hm : renameAthleteCanonical s c n now with
    | ok s' => exact rename_preserves_namesNodup h hm
    | error e => exact h
  | mergeFinal f t fin now => exact mergeFinal_preserves_namesNodup s f t fin now h
  | unmerge al fid now =>
    show namesNodup (match unmergeAlias s al fid now with
      | .ok s' => s'
      | .error _ => s)
    cases hm : unmergeAlias s al fid now with
    | ok s' => exact unmerge_preserves_namesNodup h hm
    | error e => exact h

/-! ### C1 amended -/

/-- C1 (amended): starting from a snapshot in which no two identities
share any name string, every sequence of the public mutating engine
operations (record create/update/delete, merge, rename,
mergeWithFinalName, unmergeAlias; resolution is read-only and
ensureAthleteExists runs only on resolved names inside them) preserves
the global alias-uniqueness invariant.  Reconciliation is excluded:
alias_uniqueness_cex shows one importData call can violate the
invariant. -/
theorem alias_uniqueness_preserved (s : StoredData) (ops : List EngineOp)
    (h : namesNodup s) : namesNodup (runOps s ops) := by
  induction ops generalizing s with
  | nil => exact h
  | cons op rest ih => exact ih (applyOp s op) (applyOp_preserves_namesNodup s op h)

/-- Witness for the amended C1: a merge through a canonical name
followed by an unmerge of an alias keeps the demo snapshot's names
duplicate-free. -/
theorem alias_uniqueness_preserved_witness :
    namesNodup demoStore ∧
    namesNodup (runOps demoStore
      [.merge "Ann" "Bob" "t1", .unmerge "A" "u9" "t2"]) :=
  ⟨by decide, alias_uniqueness_preserved demoStore
    [.merge "Ann" "Bob" "t1", .unmerge "A" "u9" "t2"] (by decide)⟩

/-- find? skips a leading segment that wholly fails the predicate. -/
theorem find?_append_none {p : α → Bool} {l₁ : List α} (l₂ : List α)
    (h : ∀ x ∈ l₁, p x = false) : (l₁ ++ l₂).find? p = l₂.find? p := by
  induction l₁ with
  | nil => rfl
  | cons x xs ih =>
    rw [List.cons_append, List.find?_cons_of_neg _ (by simp [h x (by simp)])]
    exact ih (fun y hy => h y (by simp [hy]))

/-- Resolution over an explicitly given athlete list, canonical case. -/
theorem resolve_concrete_canonical {R : List Athlete} {A : String}
    {sw : List SwimTime} {v : Nat} {ow : Athlete}
    (hc : R.find? (fun a => a.canonicalName == A) = some ow) :
    resolveAthleteName ⟨R, sw, v⟩ A = A := by
  unfold resolveAthleteName
  rw [hc]

/-- Resolution over an explicitly given athlete list, alias case. -/
theorem resolve_concrete_alias {R : List Athlete} {A result : String}
    {sw : List SwimTime} {v : Nat} {ow : Athlete}
    (hc : R.find? (fun a => a.canonicalName == A) = none)
    (ha : R.find? (fun a => a.aliases.contains A) = some ow)
    (hr : ow.canonicalName = result) :
    resolveAthleteName ⟨R, sw, v⟩ A = result := by
  unfold resolveAthleteName
  rw [hc, ha]
  exact hr

/-! ### C3 -/

/-- C3: merge postcondition.  For a successful merge(A, B) on a
well-formed snapshot (unique names, unique ids), with a the pre-merge
resolution of A and b that of B: every record that carried a carries b
afterwards (the record list is exactly the a-to-b rewrite), no identity
carries a as canonical name afterwards, and afterwards both A and B
resolve to b. -/
theorem merge_postcondition (s s' : StoredData) (A B now : String)
    (hn : namesNodup s)
    (hid : (s.athletes.map (fun a => a.id)).Nodup)
    (hm : mergeAthletes s A B now = .ok s') :
    s'.swimTimes = s.swimTimes.map (fun r =>
      if r.athleteName == resolveAthleteName s A then
        { r with athleteName := resolveAthleteName s B } else r) ∧
    (∀ b ∈ s'.athletes, b.canonicalName ≠ resolveAthleteName s A) ∧
    resolveAthleteName s' A = resolveAthleteName s B ∧
    resolveAthleteName s' B = resolveAthleteName s B := by
  obtain ⟨fa, ta, hf, ht, hne, rfl⟩ := mergeAthletes_ok_struct hm
  have hfa_mem : fa ∈ s.athletes := List.mem_of_find?_eq_some hf
  have hta_mem : ta ∈ s.athletes := List.mem_of_find?_eq_some ht
  have hfa_c : fa.canonicalName = resolveAthleteName s A := by simpa using List.find?_some hf
  have hta_c : ta.canonicalName = resolveAthleteName s B := by simpa using List.find?_some ht
  have hglob : (allStoreNames s.athletes).Nodup := hn
  have hrf_fa : resolveAthleteName s A ∈ athleteNames fa := by
    rw [athleteNames, ← hfa_c]
    exact List.mem_cons_self _ _
  have hrt_ta : resolveAthleteName s B ∈ athleteNames ta := by
    rw [athleteNames, ← hta_c]
    exact List.mem_cons_self _ _
  have hrf_not : ∀ b ∈ s.athletes, resolveAthleteName s A ∉ b.aliases := by
    intro b hb hmem
    have hb_eq : b = fa :=
      nodup_owner_unique hglob hfa_mem hb hrf_fa
        (by rw [athleteNames]; exact List.mem_cons_of_mem _ hmem)
    have hnd := nodup_athleteNames_of_mem hglob hfa_mem
    rw [athleteNames] at hnd
    have hni : fa.canonicalName ∉ fa.aliases := (List.nodup_cons.mp hnd).1
    rw [hb_eq] at hmem
    rw [hfa_c] at hni
    exact hni hmem
  obtain ⟨X, Y, hXY, hX⟩ := find?_decomp ht
  have h1 : updateFirst (fun a => a.canonicalName == resolveAthleteName s B)
      (fun a => { a with
        aliases := mergedAliases ta fa (resolveAthleteName s A), updatedAt := now })
      s.athletes =
      X ++ { ta with
             aliases := mergedAliases ta fa (resolveAthleteName s A),
             updatedAt := now } :: Y := by
    rw [hXY]
    exact updateFirst_of_decomp hX (by simp [hta_c])
  have hmem_sub : ∀ b, b ∈ X ∨ b ∈ Y → b ∈ s.athletes := by
    intro b hb
    rw [hXY]
    rcases hb with hb | hb
    · exact List.mem_append.mpr (Or.inl hb)
    · exact List.mem_append.mpr (Or.inr (List.mem_cons_of_mem _ hb))
  have hg : ∀ b, b ∈ X ∨ b ∈ Y →
      (if (b.id == ta.id) = true then b
       else { b with aliases := b.aliases.map (fun al =>
         if al == resolveAthleteName s A then resolveAthleteName s B else al) }) = b := by
    intro b hb
    by_cases hidb : (b.id == ta.id) = true
    · rw [if_pos hidb]
    · rw [if_neg hidb, aliasRewrite_id (hrf_not b (hmem_sub b hb))]
  have h2 : mergedAthletes s fa ta (resolveAthleteName s A) (resolveAthleteName s B) now =
      (X ++ { ta with
              aliases := mergedAliases ta fa (resolveAthleteName s A),
              updatedAt := now } :: Y).filter (fun a => a.id != fa.id) := by
    unfold mergedAthletes
    rw [h1, List.map_append, List.map_cons]
    rw [(List.map_congr_left (fun b hb => hg b (Or.inl hb))).trans (List.map_id X)]
    rw [(List.map_congr_left (fun b hb => hg b (Or.inr hb))).trans (List.map_id Y)]
    rw [if_pos (by simp)]
  have hfa_XY : fa ∈ X ∨ fa ∈ Y := by
    have hin : fa ∈ X ++ ta :: Y := hXY ▸ hfa_mem
    rcases List.mem_append.mp hin with h' | h'
    · exact Or.inl h'
    · rcases List.mem_cons.mp h' with he | h''
      · exact absurd (by rw [← hfa_c, ← hta_c, he]) hne
      · exact Or.inr h''
  have hid_ne : ta.id ≠ fa.id := by
    rw [hXY, List.map_append, List.map_cons] at hid
    rcases hfa_XY with hfaX | hfaY
    · intro he
      have hx1 : fa.id ∈ X.map (fun a => a.id) := List.mem_map.mpr ⟨fa, hfaX, rfl⟩
      have hx2 : fa.id ∈ ta.id :: Y.map (fun a => a.id) := by
        rw [← he]
        exact List.mem_cons_self _ _
      exact List.disjoint_of_nodup_append hid hx1 hx2
    · intro he
      have hcons := hid.of_append_right
      have hnin : ta.id ∉ Y.map (fun a => a.id) := (List.nodup_cons.mp hcons).1
      exact hnin (he ▸ List.mem_map.mpr ⟨fa, hfaY, rfl⟩)
  have hq_ta : (({ ta with
      aliases := mergedAliases ta fa (resolveAthleteName s A),
      updatedAt := now } : Athlete).id != fa.id) = true := by
    simpa using hid_ne
  have hR : mergedAthletes s fa ta (resolveAthleteName s A) (resolveAthleteName s B) now =
      X.filter (fun a => a.id != fa.id) ++
        { ta with
          aliases := mergedAliases ta fa (resolveAthleteName s A),
          updatedAt := now } :: Y.filter (fun a => a.id != fa.id) := by
    rw [h2, List.filter_append, List.filter_cons, if_pos hq_ta]
  have hrf_base : resolveAthleteName s A ∈
      (if ta.aliases.contains (resolveAthleteName s A) then ta.aliases
       else ta.aliases ++ [resolveAthleteName s A]) := by
    split
    next hcc => simpa using hcc
    next => simp
  have hbase_sub : ∀ x ∈ ta.aliases, x ∈
      (if ta.aliases.contains (resolveAthleteName s A) then ta.aliases
       else ta.aliases ++ [resolveAthleteName s A]) := by
    intro x hx
    split
    · exact hx
    · exact List.mem_append.mpr (Or.inl hx)
  -- how A resolved before the merge
  have hA' : A = resolveAthleteName s A ∨
      ((∀ b ∈ s.athletes, b.canonicalName ≠ A) ∧ A ∈ fa.aliases) := by
    rcases resolve_eq_cases (rfl : resolveAthleteName s A = resolveAthleteName s A) with
      h' | ⟨hnc, ow, how, hal, hoc⟩
    · exact Or.inl h'
    · right
      refine ⟨hnc, ?_⟩
      have how_eq : ow = fa := by
        refine nodup_owner_unique hglob hfa_mem how hrf_fa ?_
        rw [athleteNames, ← hoc]
        exact List.mem_cons_self _ _
      exact how_eq ▸ hal
  have hA_fa : A ∈ athleteNames fa := by
    rcases hA' with h' | ⟨_, h'⟩
    · rw [athleteNames]
      rw [h', ← hfa_c]
      exact List.mem_cons_self _ _
    · rw [athleteNames]
      exact List.mem_cons_of_mem _ h'
  have hA_merged : A ∈ mergedAliases ta fa (resolveAthleteName s A) := by
    unfold mergedAliases
    rcases hA' with h' | ⟨_, h'⟩
    · exact mem_foldl_dedupPush.mpr (Or.inl (h' ▸ hrf_base))
    · exact mem_foldl_dedupPush.mpr (Or.inr h')
  -- how B resolved before the merge
  have hB' : B = resolveAthleteName s B ∨
      ((∀ b ∈ s.athletes, b.canonicalName ≠ B) ∧ B ∈ ta.aliases) := by
    rcases resolve_eq_cases (rfl : resolveAthleteName s B = resolveAthleteName s B) with
      h' | ⟨hnc, ow, how, hal, hoc⟩
    · exact Or.inl h'
    · right
      refine ⟨hnc, ?_⟩
      have how_eq : ow = ta := by
        refine nodup_owner_unique hglob hta_mem how hrt_ta ?_
        rw [athleteNames, ← hoc]
        exact List.mem_cons_self _ _
      exact how_eq ▸ hal
  -- no athlete of the result carries the resolved source name (or A)
  have hno_canon : ∀ C, C ∈ athleteNames fa →
      ∀ b ∈ mergedAthletes s fa ta (resolveAthleteName s A) (resolveAthleteName s B) now,
      b.canonicalName ≠ C := by
    intro C hCfa b hb hbc
    rw [hR] at hb
    rcases List.mem_append.mp hb with hbX | hbM
    · obtain ⟨hbmem, hbq⟩ := List.mem_filter.mp hbX
      have hb_eq : b = fa :=
        nodup_owner_unique hglob hfa_mem (hmem_sub b (Or.inl hbmem)) hCfa
          (by rw [athleteNames, ← hbc]; exact List.mem_cons_self _ _)
      rw [hb_eq] at hbq
      simp at hbq
    · rcases List.mem_cons.mp hbM with rfl | hbY
      · have hta_eq : ta = fa := by
          refine nodup_owner_unique hglob hfa_mem hta_mem hCfa ?_
          rw [athleteNames]
          have : ta.canonicalName = C := hbc
          rw [← this]
          exact List.mem_cons_self _ _
        exact hne (by rw [← hfa_c, ← hta_c, hta_eq])
      · obtain ⟨hbmem, hbq⟩ := List.mem_filter.mp hbY
        have hb_eq : b = fa :=
          nodup_owner_unique hglob hfa_mem (hmem_sub b (Or.inr hbmem)) hCfa
            (by rw [athleteNames, ← hbc]; exact List.mem_cons_self _ _)
        rw [hb_eq] at hbq
        simp at hbq
  refine ⟨rfl, ?_, ?_, ?_⟩
  · -- no identity carries the resolved source name
    intro b hb
    exact hno_canon (resolveAthleteName s A) hrf_fa b hb
  · -- resolve A afterwards
    have hcanon_none : (mergedAthletes s fa ta (resolveAthleteName s A)
        (resolveAthleteName s B) now).find? (fun a => a.canonicalName == A) = none :=
      List.find?_eq_none.mpr (fun b hb hbeq =>
        hno_canon A hA_fa b hb (by simpa using hbeq))
    have halias : (mergedAthletes s fa ta (resolveAthleteName s A)
        (resolveAthleteName s B) now).find? (fun a => a.aliases.contains A) =
        some { ta with
               aliases := mergedAliases ta fa (resolveAthleteName s A),
               updatedAt := now } := by
      rw [hR]
      rw [find?_append_none _ (fun b hb => ?_)]
      · exact List.find?_cons_of_pos _ (by simpa using hA_merged)
      · obtain ⟨hbmem, hbq⟩ := List.mem_filter.mp hb
        by_contra hcon
        have hbmem' : A ∈ b.aliases := by
          have hx : b.aliases.contains A = true := by
            cases hcc : b.aliases.contains A
            · exact absurd hcc hcon
            · rfl
          simpa using hx
        have hb_eq : b = fa :=
          nodup_owner_unique hglob hfa_mem (hmem_sub b (Or.inl hbmem)) hA_fa
            (by rw [athleteNames]; exact List.mem_cons_of_mem _ hbmem')
        rw [hb_eq] at hbq
        simp at hbq
    exact resolve_concrete_alias hcanon_none halias hta_c
  · -- resolve B afterwards
    rcases hB' with hB1 | ⟨hBnC, hBta⟩
    · -- B is the surviving canonical name
      have hfound : (mergedAthletes s fa ta (resolveAthleteName s A)
          (resolveAthleteName s B) now).find? (fun a => a.canonicalName == B) =
          some { ta with
                 aliases := mergedAliases ta fa (resolveAthleteName s A),
                 updatedAt := now } := by
        rw [hR]
        rw [find?_append_none _ (fun b hb => ?_)]
        · exact List.find?_cons_of_pos _ (by simp [← hB1, hta_c])
        · obtain ⟨hbmem, _⟩ := List.mem_filter.mp hb
          have := hX b hbmem
          simpa [← hB1] using this
      exact (resolve_concrete_canonical hfound).trans hB1
    · -- B was an alias of the winner
      have hB_ta : B ∈ athleteNames ta := by
        rw [athleteNames]
        exact List.mem_cons_of_mem _ hBta
      have hcanon_none : (mergedAthletes s fa ta (resolveAthleteName s A)
          (resolveAthleteName s B) now).find? (fun a => a.canonicalName == B) = none := by
        refine List.find?_eq_none.mpr (fun b hb hbeq => ?_)
        rw [hR] at hb
        have hbc : b.canonicalName = B := by simpa using hbeq
        rcases List.mem_append.mp hb with hbX | hbM
        · obtain ⟨hbmem, _⟩ := List.mem_filter.mp hbX
          exact hBnC b (hmem_sub b (Or.inl hbmem)) hbc
        · rcases List.mem_cons.mp hbM with rfl | hbY
          · exact hBnC ta hta_mem hbc
          · obtain ⟨hbmem, _⟩ := List.mem_filter.mp hbY
            exact hBnC b (hmem_sub b (Or.inr hbmem)) hbc
      have halias : (mergedAthletes s fa ta (resolveAthleteName s A)
          (resolveAthleteName s B) now).find? (fun a => a.aliases.contains B) =
          some { ta with
                 aliases := mergedAliases ta fa (resolveAthleteName s A),
                 updatedAt := now } := by
        rw [hR]
        rw [find?_append_none _ (fun b hb => ?_)]
        · refine List.find?_cons_of_pos _ ?_
          have : B ∈ mergedAliases ta fa (resolveAthleteName s A) := by
            unfold mergedAliases
            exact mem_foldl_dedupPush.mpr (Or.inl (hbase_sub B hBta))
          simpa using this
        · obtain ⟨hbmem, _⟩ := List.mem_filter.mp hb
          by_contra hcon
          have hbmem' : B ∈ b.aliases := by
            have hx : b.aliases.contains B = true := by
              cases hcc : b.aliases.contains B
              · exact absurd hcc hcon
              · rfl
            simpa using hx
          have hb_eq : b = ta :=
            nodup_owner_unique hglob hta_mem (hmem_sub b (Or.inl hbmem)) hB_ta
              (by rw [athleteNames]; exact List.mem_cons_of_mem _ hbmem')
          have := hX b hbmem
          rw [hb_eq] at this
          simp [hta_c] at this
      exact resolve_concrete_alias hcanon_none halias hta_c

/-- Witness for C3: merging Ann into Bob in the demo snapshot. -/
theorem merge_postcondition_witness :
    namesNodup demoStore ∧
    ((demoStore.athletes.map (fun a => a.id)).Nodup) ∧
    ∃ s', mergeAthletes demoStore "Ann" "Bob" "t1" = .ok s' ∧
      (s'.swimTimes = demoStore.swimTimes.map (fun r =>
        if r.athleteName == resolveAthleteName demoStore "Ann" then
          { r with athleteName := resolveAthleteName demoStore "Bob" } else r) ∧
      (∀ b ∈ s'.athletes, b.canonicalName ≠ resolveAthleteName demoStore "Ann") ∧
      resolveAthleteName s' "Ann" = resolveAthleteName demoStore "Bob" ∧
      resolveAthleteName s' "Bob" = resolveAthleteName demoStore "Bob") := by
  refine ⟨by decide, by decide, ?_⟩
  refine ⟨⟨[⟨"b1", "Bob", ["Ann", "A"], "t0", "t1"⟩],
    [⟨"s1", "Bob", "100 Free", "2024-01-01", "1:00.00", "Freestyle", 100, "SCM", none,
      "2024-01-01"⟩,
     ⟨"s2", "Bob", "200 Free", "2024-02-01", "2:00.00", "Freestyle", 200, "SCM", none,
      "2024-02-01"⟩], 2⟩, rfl, ?_⟩
  exact merge_postcondition demoStore _ "Ann" "Bob" "t1" (by decide) (by decide) rfl

/-! ### Lemmas about the record map of the reconciliation pass -/

/-- Setting a key makes it retrievable. -/
theorem mapGet_mapSet_self (m : List (String × SwimTime)) (k : String) (v : SwimTime) :
    mapGet (mapSet m k v) k = some v := by
  unfold mapSet
  by_cases h : m.any (fun p => p.1 == k) = true
  · rw [if_pos h]
    induction m with
    | nil => simp at h
    | cons p ps ih =>
      rw [List.map_cons]
      by_cases hp : (p.1 == k) = true
      · rw [if_pos hp]
        unfold mapGet
        rw [List.find?_cons_of_pos _ (by simp)]
        rfl
      · rw [if_neg hp]
        unfold mapGet
        rw [List.find?_cons_of_neg _ (by simpa using hp)]
        have h' : ps.any (fun p => p.1 == k) = true := by
          rcases List.any_eq_true.mp h with ⟨q, hq, hqk⟩
          rcases List.mem_cons.mp hq with rfl | hq'
          · exact absurd hqk hp
          · exact List.any_eq_true.mpr ⟨q, hq', hqk⟩
        exact ih h'
  · rw [if_neg h]
    unfold mapGet
    have hnone : ∀ p ∈ m, ((p : String × SwimTime).1 == k) = false := by
      intro p hp
      exact Bool.eq_false_iff.mpr (List.any_eq_false.mp (Bool.eq_false_iff.mpr h) p hp)
    rw [find?_append_none _ hnone, List.find?_cons_of_pos _ (by simp)]
    rfl

/-- Setting one key does not disturb another. -/
theorem mapGet_mapSet_ne (m : List (String × SwimTime)) {k k' : String} (v : SwimTime)
    (h : k' ≠ k) : mapGet (mapSet m k v) k' = mapGet m k' := by
  unfold mapSet
  by_cases hany : m.any (fun p => p.1 == k) = true
  · rw [if_pos hany]
    clear hany
    induction m with
    | nil => rfl
    | cons p ps ih =>
      rw [List.map_cons]
      unfold mapGet
      by_cases hp : (p.1 == k) = true
      · have hpk : p.1 = k := by simpa using hp
        rw [if_pos hp]
        rw [List.find?_cons_of_neg _ (by simpa using Ne.symm h)]
        rw [List.find?_cons_of_neg _ (by simp [hpk]; exact Ne.symm h)]
        exact ih
      · rw [if_neg hp]
        by_cases hp' : (p.1 == k') = true
        · simp [List.find?_cons, hp']
        · rw [List.find?_cons_of_neg _ (by simpa using hp'),
            List.find?_cons_of_neg _ (by simpa using hp')]
          exact ih
  · rw [if_neg hany]
    unfold mapGet
    cases hfind : m.find? (fun p => p.1 == k') with
    | some q =>
      have hq : (m ++ [(k, v)]).find? (fun p => p.1 == k') = some q := by
        obtain ⟨l₁, l₂, rfl, hall⟩ := find?_decomp hfind
        rw [List.append_assoc, List.cons_append]
        rw [find?_append_none _ hall, List.find?_cons_of_pos _ (List.find?_some hfind)]
      rw [hq]
    | none =>
      have hq : (m ++ [(k, v)]).find? (fun p => p.1 == k') = none := by
        have hnone : ∀ p ∈ m, ((p : String × SwimTime).1 == k') = false := by
          intro p hp
          have := List.find?_eq_none.mp hfind p hp
          simpa using this
        rw [find?_append_none _ hnone]
        rw [List.find?_cons_of_neg _ (by simpa using Ne.symm h)]
        rfl
      rw [hq]

/-- Folding further records over the map does not disturb a key none of
them carries. -/
theorem mapGet_foldl_mapSet_of_not_mem (ts : List SwimTime)
    (m : List (String × SwimTime)) (k : String) (h : ∀ t ∈ ts, t.id ≠ k) :
    mapGet (ts.foldl (fun acc t => mapSet acc t.id t) m) k = mapGet m k := by
  induction ts generalizing m with
  | nil => rfl
  | cons t ts ih =>
    rw [List.foldl_cons]
    rw [ih _ (fun u hu => h u (by simp [hu]))]
    exact mapGet_mapSet_ne _ _ (fun he => h t (by simp) he.symm)

/-- With pairwise distinct ids, the map built from the record list sends
each record's id to that record. -/
theorem buildMap_lookup {ts : List SwimTime} (hid : (ts.map (fun t => t.id)).Nodup)
    {t : SwimTime} (ht : t ∈ ts) (m : List (String × SwimTime)) :
    mapGet (ts.foldl (fun acc u => mapSet acc u.id u) m) t.id = some t := by
  induction ts generalizing m with
  | nil => simp at ht
  | cons u us ih =>
    rw [List.map_cons] at hid
    have hnin := (List.nodup_cons.mp hid).1
    have hid' := (List.nodup_cons.mp hid).2
    rcases List.mem_cons.mp ht with rfl | ht'
    · rw [List.foldl_cons]
      rw [mapGet_foldl_mapSet_of_not_mem us _ t.id
        (fun w hw he => hnin (he ▸ List.mem_map.mpr ⟨w, hw, rfl⟩))]
      exact mapGet_mapSet_self m t.id t
    · rw [List.foldl_cons]
      exact ih hid' ht' _

/-- Replaying a record the map already holds unchanged only bumps the
skipped counter: with an irreflexive date comparison the strictly-newer
check fails against the record itself (and an invalid record is skipped
outright). -/
theorem importOneTime_self_skip (uuid : Nat → String) (now : String)
    (dateGt : String → String → Bool) (hirr : ∀ x, dateGt x x = false)
    (st : RecordPassState) (t : SwimTime) (hne : t.id ≠ "")
    (hget : mapGet st.emap t.id = some t) :
    (importOneTime uuid now dateGt st t).emap = st.emap ∧
      (importOneTime uuid now dateGt st t).updated = st.updated ∧
      (importOneTime uuid now dateGt st t).imported = st.imported ∧
      (importOneTime uuid now dateGt st t).skipped = st.skipped + 1 := by
  unfold importOneTime
  by_cases hv : validImported t = true
  · have hnv : (!validImported t) = false := by rw [hv]; rfl
    rw [hnv, if_neg Bool.false_ne_true]
    dsimp only
    have hidt : (t.id != "") = true := by simpa using hne
    have hscrut : (if (t.id != "") = true then mapGet st.emap t.id else none) = some t := by
      rw [if_pos hidt, hget]
    rw [hscrut]
    dsimp only
    have hdate : (t.date != "") = true := by
      cases hc : t.date != "" with
      | true => rfl
      | false =>
        exfalso
        unfold validImported at hv
        rw [hc] at hv
        simp at hv
    have heq : (if (t.last_modified != "") = true then t.last_modified
        else if (t.date != "") = true then t.date else now) =
        (if (t.last_modified != "") = true then t.last_modified else t.date) := by
      by_cases hlm : (t.last_modified != "") = true
      · rw [if_pos hlm, if_pos hlm]
      · rw [if_neg hlm, if_neg hlm, if_pos hdate]
    rw [heq, hirr, if_neg Bool.false_ne_true]
    exact ⟨rfl, rfl, rfl, rfl⟩
  · have hnv : (!validImported t) = true := by
      cases hvv : validImported t with
      | true => exact absurd hvv hv
      | false => rfl
    rw [hnv, if_pos rfl]
    exact ⟨rfl, rfl, rfl, rfl⟩

/-- Folding the whole record pass over records the map already holds
unchanged leaves the map and the updated/imported counters alone and
skips every record once. -/
theorem recordPass_self_skips (uuid : Nat → String) (now : String)
    (dateGt : String → String → Bool) (hirr : ∀ x, dateGt x x = false)
    (ts : List SwimTime) (st : RecordPassState)
    (hcond : ∀ t ∈ ts, t.id ≠ "" ∧ mapGet st.emap t.id = some t) :
    (ts.foldl (importOneTime uuid now dateGt) st).emap = st.emap ∧
      (ts.foldl (importOneTime uuid now dateGt) st).updated = st.updated ∧
      (ts.foldl (importOneTime uuid now dateGt) st).imported = st.imported ∧
      (ts.foldl (importOneTime uuid now dateGt) st).skipped = st.skipped + ts.length := by
  induction ts generalizing st with
  | nil => exact ⟨rfl, rfl, rfl, rfl⟩
  | cons t ts ih =>
    obtain ⟨hne, hget⟩ := hcond t (by simp)
    have hstep := importOneTime_self_skip uuid now dateGt hirr st t hne hget
    rw [List.foldl_cons]
    have hrest := ih (importOneTime uuid now dateGt st t) (fun u hu => by
      obtain ⟨h1, h2⟩ := hcond u (by simp [hu])
      exact ⟨h1, by rw [hstep.1]; exact h2⟩)
    refine ⟨hrest.1.trans hstep.1, hrest.2.1.trans hstep.2.1,
      hrest.2.2.1.trans hstep.2.2.1, ?_⟩
    rw [hrest.2.2.2, hstep.2.2.2, List.length_cons]
    omega

/-- Running the record pass of importData on the store's own record list
(what a re-import of an export does) updates and imports nothing and
skips every record, whatever the identity pass delivered, provided the
stored ids are nonempty and pairwise distinct. -/
theorem importTimesPhase_self (s : StoredData) (da : List Athlete)
    (cf : List AliasConflict) (ai k0 : Nat) (uuid : Nat → String) (now : String)
    (dateGt : String → String → Bool) (hirr : ∀ x, dateGt x x = false)
    (hne : ∀ t ∈ s.swimTimes, t.id ≠ "")
    (hid : (s.swimTimes.map (fun t => t.id)).Nodup) :
    (importTimesPhase s da cf ai k0 s.swimTimes uuid now dateGt).2.updated = 0 ∧
      (importTimesPhase s da cf ai k0 s.swimTimes uuid now dateGt).2.imported = 0 ∧
      (importTimesPhase s da cf ai k0 s.swimTimes uuid now dateGt).2.skipped =
        s.swimTimes.length := by
  have h := recordPass_self_skips uuid now dateGt hirr s.swimTimes
    { persisted := s, emap := s.swimTimes.foldl (fun m t => mapSet m t.id t) [],
      updated := 0, imported := 0, skipped := 0, errors := [], k := k0 }
    (fun t ht => ⟨hne t ht, buildMap_lookup hid ht []⟩)
  unfold importTimesPhase
  dsimp only
  exact ⟨h.2.1, h.2.2.1, (h.2.2.2).trans (Nat.zero_add _)⟩

/-- C6 (amended): for every snapshot satisfying the alias-uniqueness
invariant in which, additionally, every performance record's id is a
nonempty string and the record ids are pairwise distinct, feeding the
output of exportData back into importData -- with any irreflexive date
comparison, as the JavaScript Date ordering is -- yields updated = 0,
imported = 0 and skipped equal to the number of performance records.
The original claim omits the id conditions and is false without them:
reconcile_roundtrip_cex re-imports a record whose id is the empty
string, which JavaScript treats as falsy. -/
theorem reconcile_roundtrip_amended (s : StoredData) (uuid : Nat → String)
    (now : String) (dateGt : String → String → Bool)
    (hn : namesNodup s) (hirr : ∀ x, dateGt x x = false)
    (hne : ∀ t ∈ s.swimTimes, t.id ≠ "")
    (hid : (s.swimTimes.map (fun t => t.id)).Nodup) :
    (importData s (exportData s) uuid now dateGt).2.updated = 0 ∧
      (importData s (exportData s) uuid now dateGt).2.imported = 0 ∧
      (importData s (exportData s) uuid now dateGt).2.skipped = s.swimTimes.length := by
  clear hn
  have h := importTimesPhase_self s
    (s.athletes.foldl (importAthlete uuid now) (s.athletes, [], 0, 0)).1
    (s.athletes.foldl (importAthlete uuid now) (s.athletes, [], 0, 0)).2.1
    (s.athletes.foldl (importAthlete uuid now) (s.athletes, [], 0, 0)).2.2.1
    (s.athletes.foldl (importAthlete uuid now) (s.athletes, [], 0, 0)).2.2.2
    uuid now dateGt hirr hne hid
  exact h

/-- Witness for the amended round trip at the concrete healthy snapshot. -/
theorem reconcile_roundtrip_amended_witness :
    namesNodup demoStore ∧
      (importData demoStore (exportData demoStore) demoUuid "t9" demoDateGt).2.updated = 0 ∧
      (importData demoStore (exportData demoStore) demoUuid "t9" demoDateGt).2.imported = 0 ∧
      (importData demoStore (exportData demoStore) demoUuid "t9" demoDateGt).2.skipped =
        demoStore.swimTimes.length :=
  ⟨by decide, reconcile_roundtrip_amended demoStore demoUuid "t9" demoDateGt (by decide)
    (fun x => rfl) (by decide) (by decide)⟩
